import Mathlib

/-!
Verification of the voice-driven workout-logging core (kori-mobile).

Shallow embedding of the TypeScript sources:
  * `src/utils/workoutParsing.ts`   (parseWorkoutSet, normalizeYesNo, toTitleCase)
  * `src/hooks/useAudioLock.ts`     (runAudioTask)
  * `src/services/yesNoListener.ts` (listenForYesNoOnce)
  * `src/services/workoutSetListener.ts` (listenForWorkoutSet)
  * `src/services/setExtractor.ts`  (extractSetFromTranscript, post-validation)
  * `src/hooks/useWorkoutSession.ts` (logSetAndConfirm, rejectSetAndConfirm,
    handleAutoYesNo, processValidSet)

JavaScript strings are modelled as `List Char` (ASCII fragment: `\s` is
modelled by the ASCII whitespace characters, `toLowerCase` by the ASCII
case map).  JavaScript numbers that the program ever produces here are
integers or finite decimal fractions well inside the exactly-representable
range, so they are modelled by `ℚ` (weights) and `ℤ` (reps).  External
effects (microphone, transcription network call, the OpenAI extraction
call, the database) are modelled as oracle inputs describing the outcome
of each call; thrown JavaScript exceptions are modelled with `Except`.
-/

namespace Kori

/-! ### Characters -/

/-- ASCII model of `String.prototype.toLowerCase`. -/
def lowerChar (c : Char) : Char :=
  if 'A' ≤ c ∧ c ≤ 'Z' then Char.ofNat (c.toNat + 32) else c

/-- ASCII model of the JavaScript `\s` character set. -/
def isWS (c : Char) : Bool :=
  c = ' ' || c = '\t' || c = '\n' || c = '\r'

/-- The character set `[a-z]`. -/
def isLower (c : Char) : Bool := 'a' ≤ c && c ≤ 'z'

/-- The character set `\d`. -/
def isDigitC (c : Char) : Bool := '0' ≤ c && c ≤ '9'

/-- The regex character class `[a-z ]` of the exercise group (the source
regex carries the `i` flag, so uppercase letters are accepted as well). -/
def isExCh (c : Char) : Bool := isLower (lowerChar c) || c = ' '

/-- `Number(...)` on a string of decimal digits. -/
def digitsToNat (ds : List Char) : Nat :=
  ds.foldl (fun n c => 10 * n + (c.toNat - '0'.toNat)) 0

/-! ### Normalization pipeline of `parseWorkoutSet`
(`raw.toLowerCase().replace(/[.,]/g,' ').replace(/\s+/g,' ').trim()`). -/

/-- `replace(/[.,]/g, ' ')`, character by character. -/
def punctToSpace (c : Char) : Char :=
  if c = '.' ∨ c = ',' then ' ' else c

/-- `replace(/\s+/g, ' ')`, processed left to right: the first character
of a maximal whitespace run becomes one space, its remaining whitespace
characters (tracked with the `prevWS` flag) are dropped. -/
def collapseGo (prevWS : Bool) : List Char → List Char
  | [] => []
  | c :: cs =>
    if isWS c then
      if prevWS then collapseGo true cs else ' ' :: collapseGo true cs
    else c :: collapseGo false cs

/-- `replace(/\s+/g, ' ')`: every maximal whitespace run becomes one space. -/
def collapseWS (l : List Char) : List Char := collapseGo false l

/-- `trimStart` (`dropWhile` whitespace). -/
def trimLeft (l : List Char) : List Char := l.dropWhile isWS

/-- `trimEnd`. -/
def trimRight (l : List Char) : List Char := (l.reverse.dropWhile isWS).reverse

/-- `String.prototype.trim`. -/
def trimStr (l : List Char) : List Char := trimRight (trimLeft l)

/-- The normalization performed at the top of `parseWorkoutSet`. -/
def normalize (raw : List Char) : List Char :=
  trimStr (collapseWS ((raw.map lowerChar).map punctToSpace))

/-! ### Substring search (`String.prototype.includes`) -/

/-- Does `p` occur at the start of `s`? -/
def hasPrefixCh : List Char → List Char → Bool
  | [], _ => true
  | _ :: _, [] => false
  | p :: ps, c :: cs => p = c && hasPrefixCh ps cs

/-- `s.includes(p)`: does `p` occur (contiguously) anywhere in `s`? -/
def containsSub (p : List Char) : List Char → Bool
  | [] => hasPrefixCh p []
  | c :: cs => hasPrefixCh p (c :: cs) || containsSub p cs

/-! ### The Tier-1 regex
`/^(?<exercise>[a-z ]+?)\s+(?<weight>\d+(?:\.\d+)?)\s*(?:lbs|pounds)?\s*(?:for|x)?\s*(?<reps>\d+)\s*(?:reps)?$/i`

The matcher below is this one fixed regex, translated construct by
construct with JavaScript semantics: the lazy `+?` of the exercise group
tries the shortest prefix first, `\d+` is greedy with backtracking
(longest split of the maximal digit run first), the optional literal
groups try to match (in alternation order) and fall back to skipping.
A `\s+`/`\s*` is taken greedily without backtracking: no construct that
follows one of them in this pattern can match a whitespace character, so
giving spaces back can never turn a failure into a match. -/

/-- Case-insensitive literal match (the regex has the `i` flag); returns
the rest of the text on success. -/
def matchLit : List Char → List Char → Option (List Char)
  | [], cs => some cs
  | _ :: _, [] => none
  | p :: ps, c :: cs =>
    if lowerChar p = lowerChar c then matchLit ps cs else none

/-- Greedy `\d+` with backtracking: `ds` is the maximal digit run at the
current position and `rest` the text after it; try handing the `n`
longest prefixes of `ds` to the continuation `k`, longest first. -/
def tryDigitsAux (k : List Char → List Char → Option α) (ds rest : List Char) :
    Nat → Option α
  | 0 => none
  | n + 1 => (k (ds.take (n + 1)) (ds.drop (n + 1) ++ rest)).orElse
      (fun _ => tryDigitsAux k ds rest n)

/-- Greedy `\d+` at the current position. -/
def tryDigits (k : List Char → List Char → Option α) (cs : List Char) : Option α :=
  tryDigitsAux k (cs.takeWhile isDigitC) (cs.dropWhile isDigitC)
    (cs.takeWhile isDigitC).length

def lbsLit : List Char := ['l', 'b', 's']
def poundsLit : List Char := ['p', 'o', 'u', 'n', 'd', 's']
def forLit : List Char := ['f', 'o', 'r']
def xLit : List Char := ['x']
def repsLit : List Char := ['r', 'e', 'p', 's']

/-- Tail `\s*(?:reps)?$` of the regex. -/
def afterReps (cs : List Char) : Bool :=
  (match matchLit repsLit (cs.dropWhile isWS) with
   | some cs2 => cs2.isEmpty
   | none => false) || (cs.dropWhile isWS).isEmpty

/-- `\s*(?<reps>\d+)\s*(?:reps)?$`. -/
def stageReps (cs : List Char) : Option Nat :=
  tryDigits (fun ds rest => if afterReps rest then some (digitsToNat ds) else none)
    (cs.dropWhile isWS)

/-- `\s*(?:for|x)?` followed by the reps stage. -/
def stageFor (cs : List Char) : Option Nat :=
  (match matchLit forLit (cs.dropWhile isWS) with
   | some cs2 => stageReps cs2
   | none => none).orElse fun _ =>
  (match matchLit xLit (cs.dropWhile isWS) with
   | some cs2 => stageReps cs2
   | none => none).orElse fun _ =>
  stageReps (cs.dropWhile isWS)

/-- `\s*(?:lbs|pounds)?` followed by the for/x stage. -/
def stageLbs (cs : List Char) : Option Nat :=
  (match matchLit lbsLit (cs.dropWhile isWS) with
   | some cs2 => stageFor cs2
   | none => none).orElse fun _ =>
  (match matchLit poundsLit (cs.dropWhile isWS) with
   | some cs2 => stageFor cs2
   | none => none).orElse fun _ =>
  stageFor (cs.dropWhile isWS)

/-- `(?<weight>\d+(?:\.\d+)?)` followed by the lbs stage; returns the
weight value and the reps value.  (The optional fraction is tried first,
as the greedy `(?:...)?` does.) -/
def stageWeight (cs : List Char) : Option (ℚ × Nat) :=
  tryDigits (fun ds rest =>
    (match rest with
     | c :: rest' =>
       if c = '.' then
         tryDigits (fun fds rest'' =>
           (stageLbs rest'').map fun r =>
             (((digitsToNat ds : ℚ) + (digitsToNat fds : ℚ) / ((10 : ℚ) ^ fds.length)), r))
           rest'
       else none
     | [] => none).orElse fun _ =>
    (stageLbs rest).map fun r => ((digitsToNat ds : ℚ), r)) cs

/-- `\s+` (at least one whitespace) followed by the weight stage. -/
def stageSpaceWeight (cs : List Char) : Option (ℚ × Nat) :=
  match cs with
  | c :: cs1 => if isWS c then stageWeight (cs1.dropWhile isWS) else none
  | [] => none

/-- The lazy exercise group `(?<exercise>[a-z ]+?)`: grow the matched
prefix one character at a time (shortest first, as `+?` does), and at
each length try the rest of the pattern. -/
def goExercise (pre : List Char) : List Char → Option (List Char × ℚ × Nat)
  | [] => none
  | c :: rest =>
    if isExCh c then
      match stageSpaceWeight rest with
      | some wr => some (pre ++ [c], wr)
      | none => goExercise (pre ++ [c]) rest
    else none

/-- `text.match(re)` for the Tier-1 regex: the captured groups
(exercise, weight value, reps value), or `none`. -/
def matchTier1 (cs : List Char) : Option (List Char × ℚ × Nat) :=
  goExercise [] cs

/-! ### `workoutParsing.ts` -/

/-- The intermediate parsed triple (`ParsedWorkoutSet`). -/
structure ParsedWorkoutSet where
  exerciseName : List Char
  weight : ℚ
  reps : ℤ
deriving DecidableEq, Repr

/-- The literal `'same weight'`. -/
def sameWeightLit : List Char := ['s', 'a', 'm', 'e', ' ', 'w', 'e', 'i', 'g', 'h', 't']

/-- The literal `'same reps'`. -/
def sameRepsLit : List Char := ['s', 'a', 'm', 'e', ' ', 'r', 'e', 'p', 's']

/-- The literal `'same as'`. -/
def sameAsLit : List Char := ['s', 'a', 'm', 'e', ' ', 'a', 's']

/-- `parseWorkoutSet` from `src/utils/workoutParsing.ts`: normalize,
reject contextual phrases, then match the Tier-1 regex. -/
def parseWorkoutSet (raw : List Char) : Option ParsedWorkoutSet :=
  let text := normalize raw
  if containsSub sameWeightLit text || containsSub sameRepsLit text
      || containsSub sameAsLit text then
    none
  else
    (matchTier1 text).map fun ewr =>
      { exerciseName := trimStr ewr.1
        weight := ewr.2.1
        reps := (ewr.2.2 : ℤ) }

/-- Result type of `normalizeYesNo`. -/
inductive YNAns where
  | yes
  | no
  | unknown
deriving DecidableEq, Repr

def yesLit : List Char := ['y', 'e', 's']
def yeahLit : List Char := ['y', 'e', 'a', 'h']
def yepLit : List Char := ['y', 'e', 'p']
def noLit : List Char := ['n', 'o']
def nopeLit : List Char := ['n', 'o', 'p', 'e']

/-- The character set `[.,!?]` stripped by `normalizeYesNo`. -/
def isYNPunct (c : Char) : Bool :=
  c = '.' || c = ',' || c = '!' || c = '?'

/-- `normalizeYesNo` from `src/utils/workoutParsing.ts`:
`text.toLowerCase().trim().replace(/[.,!?]/g, '')`, then affirmative
substrings first, negative substrings second. -/
def normalizeYesNo (text : List Char) : YNAns :=
  let normalized := (trimStr (text.map lowerChar)).filter (fun c => !isYNPunct c)
  if containsSub yesLit normalized || containsSub yeahLit normalized
      || containsSub yepLit normalized then
    .yes
  else if containsSub noLit normalized || containsSub nopeLit normalized then
    .no
  else
    .unknown

/-- ASCII model of `toUpperCase` for one character. -/
def upperChar (c : Char) : Char :=
  if 'a' ≤ c ∧ c ≤ 'z' then Char.ofNat (c.toNat - 32) else c

/-- The regex `\w` class. -/
def isWordCh (c : Char) : Bool :=
  isLower c || ('A' ≤ c && c ≤ 'Z') || isDigitC c || c = '_'

/-- `toTitleCase` from `src/utils/workoutParsing.ts`:
`text.replace(/\b\w/g, c => c.toUpperCase())` — uppercase every word
character that is not preceded by a word character. -/
def toTitleCaseAux (prevWord : Bool) : List Char → List Char
  | [] => []
  | c :: cs =>
    (if isWordCh c && !prevWord then upperChar c else c)
      :: toTitleCaseAux (isWordCh c) cs

def toTitleCase (text : List Char) : List Char := toTitleCaseAux false text

/-! ### `useAudioLock.ts` — the audio mutex

`runAudioTask` is modelled as a function of the flag value at entry and
of the guarded task's outcome (the task is a suspended computation whose
eventual outcome, value or thrown error, is the oracle `task`).  The
model records whether the task body was started, the flag value while it
ran, the propagated outcome (`none` is the skipped result `null`), and
the flag value after the call settles. -/

structure AudioRunResult (ε α : Type) where
  /-- how many times the guarded task body was executed -/
  executions : Nat
  /-- the flag value observed by the task while it ran (meaningful only
  when `executions = 1`) -/
  busyDuring : Bool
  /-- what the caller receives: the task's value (`some`), the skipped
  `null` (`none`), or the task's rethrown error -/
  outcome : Except ε (Option α)
  /-- the flag value after the promise settles -/
  busyAfter : Bool

/-- `runAudioTask` from `src/hooks/useAudioLock.ts`. -/
def runAudioTask (busy : Bool) (task : Except ε α) : AudioRunResult ε α :=
  if busy then
    { executions := 0, busyDuring := busy, outcome := .ok none, busyAfter := busy }
  else
    match task with
    | .ok a =>
      { executions := 1, busyDuring := true, outcome := .ok (some a), busyAfter := false }
    | .error e =>
      { executions := 1, busyDuring := true, outcome := .error e, busyAfter := false }

/-! ### `setExtractor.ts` — Tier-2 extraction

The network round trip (fetch, HTTP status, JSON body) is an oracle: an
`Except` whose error covers the missing API key, a network failure, a
non-2xx status and a missing message (all of which the source turns into
a thrown error), and whose value is the parsed structured output of the
model.  The post-validation applied to that output is source code and is
embedded below. -/

/-- The parsed JSON produced by the OpenAI structured output
(`SetExtractionResult` before validation).  `weight`/`reps`/name are
optional because the schema admits `null`. -/
structure LlmJson where
  ok : Bool
  exerciseName : Option (List Char)
  weight : Option ℚ
  reps : Option ℤ
  reason : Option (List Char)
deriving DecidableEq, Repr

/-- Result type of `extractSetFromTranscript`. -/
inductive ExtractResult where
  | ok (exerciseName : List Char) (weight : ℚ) (reps : ℤ)
  | notOk (reason : List Char)
deriving DecidableEq, Repr

/-- JavaScript truthiness test used by `!result.weight` etc. -/
def falsyNum (w : Option ℚ) : Bool :=
  match w with
  | none => true
  | some q => q = 0

def falsyInt (w : Option ℤ) : Bool :=
  match w with
  | none => true
  | some q => q = 0

def falsyStr (s : Option (List Char)) : Bool :=
  match s with
  | none => true
  | some l => l.isEmpty

/-- Does the exercise name contain a letter (`/[a-zA-Z]/.test`)? -/
def hasLetter (l : List Char) : Bool :=
  l.any fun c => isLower c || ('A' ≤ c && c ≤ 'Z')

/-- `extractSetFromTranscript` from `src/services/setExtractor.ts`: the
response oracle, followed by the source's validation chain.  A thrown
error (`.error`) propagates to the caller. -/
def extractSetFromTranscript (resp : Except Unit LlmJson) : Except Unit ExtractResult :=
  match resp with
  | .error u => .error u
  | .ok j =>
    if j.ok then
      if falsyStr j.exerciseName || falsyNum j.weight || falsyInt j.reps then
        .ok (.notOk "Incomplete extraction result".toList)
      else
        match j.exerciseName, j.weight, j.reps with
        | some name, some w, some r =>
          if w < 5 ∨ w > 1000 then
            .ok (.notOk "Weight must be between 5 and 1000 pounds".toList)
          else if r < 1 ∨ r > 50 then
            .ok (.notOk "Reps must be between 1 and 50".toList)
          else if name.length < 3 ∨ name.length > 50 then
            .ok (.notOk "Invalid exercise name".toList)
          else if !hasLetter name then
            .ok (.notOk "Exercise name must contain letters".toList)
          else
            .ok (.ok name w r)
        | _, _, _ => .ok (.notOk "Incomplete extraction result".toList)
    else
      .ok (.notOk (match j.reason with
        | some r => if r.isEmpty then "Could not extract workout set".toList else r
        | none => "Could not extract workout set".toList))

/-! ### `types/workout.ts` -/

/-- A persisted set (`WorkoutSet`). -/
structure WorkoutSet where
  id : Nat
  date : List Char
  exerciseName : List Char
  weight : ℚ
  reps : ℤ
  setNumber : Nat
  userId : Option (List Char)
deriving DecidableEq, Repr

/-- `CreateWorkoutSetInput` (a `WorkoutSet` without its `id`). -/
structure CreateWorkoutSetInput where
  date : List Char
  exerciseName : List Char
  weight : ℚ
  reps : ℤ
  setNumber : Nat
  userId : Option (List Char)
deriving DecidableEq, Repr

/-! ### `workoutSetListener.ts` — the workout-set listener

One loop iteration touches the microphone (`startRecording` /
`stopRecording`, whose failure escapes the per-chunk `try` and aborts
the whole listener), the transcription service raced against the 10 s
timeout (failure or timeout is caught per chunk), and possibly the Tier-2
extractor.  Each iteration's external outcomes form one `ChunkEnv`; the
list of environments stands for the `maxAttempts` iterations the loop
may perform. -/

structure ChunkEnv where
  /-- `startRecording` + 5 s chunk + `stopRecording` -/
  record : Except Unit Unit
  /-- `transcribeAudioFile` raced against the 10 s timeout -/
  transcribe : Except Unit (List Char)
  /-- the Tier-2 network response, used only when the gated Tier-1 parse
  fails (see `runChunk`) -/
  llm : Except Unit LlmJson
deriving Repr

/-- Result type `ListenResult` of `listenForWorkoutSet`. -/
inductive ListenResult where
  | success (parsed : ParsedWorkoutSet)
  | first_failed
  | timeout
  | error
deriving DecidableEq, Repr

/-- The range gate applied to a Tier-1 match: a parsed set with
`weight < 5 || weight > 1000 || reps < 1 || reps > 50` is discarded
(`parsed = null`). -/
def tier1Gate (p : Option ParsedWorkoutSet) : Option ParsedWorkoutSet :=
  match p with
  | some q =>
    if q.weight < 5 ∨ q.weight > 1000 ∨ q.reps < 1 ∨ q.reps > 50 then none
    else some q
  | none => none

/-- The Tier-2 leg of one chunk: call `extractSetFromTranscript` (its
thrown errors are caught and leave `parsed = null`), and keep the triple
when `llmResult.ok`. -/
def llmFallback (llm : Except Unit LlmJson) : Option ParsedWorkoutSet :=
  match extractSetFromTranscript llm with
  | .error _ => none
  | .ok (.notOk _) => none
  | .ok (.ok name w r) => some { exerciseName := name, weight := w, reps := r }

/-- The parse of one successfully transcribed chunk: gated Tier-1 first,
Tier-2 only when that fails. -/
def runChunk (llm : Except Unit LlmJson) (t : List Char) : Option ParsedWorkoutSet :=
  match tier1Gate (parseWorkoutSet t) with
  | some p => some p
  | none => llmFallback llm

/-- The attempt loop of `listenForWorkoutSet`.  `attempt` is the loop
index (the distinguished `first_failed` return fires only at index 0);
exhausting the environments is the `timeout` return; a recording error
escapes to the outer `catch` and becomes the `error` return. -/
def listenLoop : List ChunkEnv → Nat → ListenResult
  | [], _ => .timeout
  | e :: rest, attempt =>
    match e.record with
    | .error _ => .error
    | .ok _ =>
      match e.transcribe with
      | .error _ => listenLoop rest (attempt + 1)
      | .ok t =>
        match runChunk e.llm t with
        | some p => .success p
        | none =>
          if attempt = 0 then .first_failed
          else listenLoop rest (attempt + 1)

/-- `listenForWorkoutSet` from `src/services/workoutSetListener.ts`. -/
def listenForWorkoutSet (envs : List ChunkEnv) : ListenResult :=
  listenLoop envs 0

/-! ### `yesNoListener.ts` — the yes/no listener -/

/-- External outcomes of one yes/no attempt. -/
structure YNEnv where
  record : Except Unit Unit
  transcribe : Except Unit (List Char)
deriving Repr

/-- The loop body of `listenForYesNoOnce` (`maxAttempts = 3`): the value
of the `try` block — recording errors escape as `.error`, transcription
errors are caught per attempt, a clear classification short-circuits. -/
def ynLoop : List YNEnv → Except Unit YNAns
  | [] => .ok .unknown
  | e :: rest =>
    match e.record with
    | .error u => .error u
    | .ok _ =>
      match e.transcribe with
      | .error _ => ynLoop rest
      | .ok t =>
        match normalizeYesNo t with
        | .yes => .ok .yes
        | .no => .ok .no
        | .unknown => ynLoop rest

/-- `listenForYesNoOnce` from `src/services/yesNoListener.ts`: the three
attempts run inside an outer `catch` that converts any escaped exception
into `unknown`, so the caller always receives a plain answer. -/
def listenForYesNoOnce (e₀ e₁ e₂ : YNEnv) : YNAns :=
  match ynLoop [e₀, e₁, e₂] with
  | .ok a => a
  | .error _ => .unknown

/-- Specification-side reading of the yes/no contract (from the spec's
words): scan the attempts in order; a recording exception ends the scan
with no classification, a transcription failure or an ambiguous
transcript moves to the next attempt, and the first clear transcript
yields its classification. -/
def firstClearAnswer : List YNEnv → Option YNAns
  | [] => none
  | e :: rest =>
    match e.record with
    | .error _ => none
    | .ok _ =>
      match e.transcribe with
      | .error _ => firstClearAnswer rest
      | .ok t =>
        match normalizeYesNo t with
        | .yes => some .yes
        | .no => some .no
        | .unknown => firstClearAnswer rest

/-! ### `useWorkoutSession.ts` — the session orchestrator

The orchestrator's React state is a record; each modelled handler maps
the state (plus oracles for the external outcomes) to the new state,
and additionally emits a trace of the observable events relevant to the
verified claims: every `setPhase` call, the completed spoken
confirmation of a recognized set, and every actual start of yes/no
listening (`runAudioTask` not skipped). -/

inductive Phase where
  | idle
  | transcribing
  | confirming
  | awaiting_yesno
  | logging
deriving DecidableEq, Repr

/-- The transient candidate record held while awaiting confirmation. -/
structure PendingSet where
  exerciseName : List Char
  weight : ℚ
  reps : ℤ
deriving DecidableEq, Repr

/-- The orchestrator's state variables. -/
structure SessState where
  phase : Phase
  pendingSet : Option PendingSet
  loading : Bool
  errorMsg : Option (List Char)
  transcript : List Char
  todaySets : Option (List WorkoutSet)
deriving DecidableEq, Repr

/-- Observable events of one orchestrator run. -/
inductive SEvent where
  /-- a `setPhase p` call -/
  | phaseSet (p : Phase)
  /-- the spoken confirmation of a recognized set completed -/
  | confirmSpoken
  /-- yes/no voice listening actually started -/
  | ynListen
deriving DecidableEq, Repr

/-- Outcome oracle for one guarded `speakWithIndicator` call: whether the
audio lock was busy (the guarded task is skipped) and whether TTS
succeeded (its failure is caught inside the task). -/
structure SpeakCall where
  busy : Bool
  ok : Bool
deriving DecidableEq, Repr

/-- Outcome oracle for one `handleListenForYesNo` call: whether the audio
lock was busy, and the answer the yes/no listener returns when it runs. -/
structure YNCallEnv where
  busy : Bool
  ans : YNAns
deriving DecidableEq, Repr

/-- `handleListenForYesNo`: the yes/no listener under the audio lock; a
skipped (`null`) result is coalesced to `unknown` (`result ?? 'unknown'`).
Emits `ynListen` when listening actually starts. -/
def handleListenForYesNo (c : YNCallEnv) : YNAns × List SEvent :=
  if c.busy then (.unknown, []) else (c.ans, [.ynListen])

/-- Oracles of one `logSetAndConfirm` call. -/
structure LogOracles where
  /-- `logWorkoutSet` (persistence) -/
  persist : Except Unit Unit
  /-- `refetchSets` (returns the day's fresh sets) -/
  refetch : Except Unit (List WorkoutSet)
  /-- the guarded `'Okay, logged.'` speech (failure caught in the task) -/
  speak : SpeakCall
deriving Repr

def failedLogMsg : List Char := "Failed to log set".toList

/-- The `setNumber` computation and insert payload of `logSetAndConfirm`:
count today's sets of the same exercise name, plus one. -/
def nextSetInput (today : List Char) (todaySets : Option (List WorkoutSet))
    (setData : PendingSet) : CreateWorkoutSetInput :=
  { date := today
    exerciseName := setData.exerciseName
    weight := setData.weight
    reps := setData.reps
    setNumber :=
      ((todaySets.getD []).filter (fun s => s.exerciseName = setData.exerciseName)).length + 1
    userId := none }

/-- Result of a modelled `logSetAndConfirm` call. -/
structure LogResult where
  state : SessState
  events : List SEvent
  /-- the payload handed to `logWorkoutSet` -/
  attempted : CreateWorkoutSetInput
  /-- whether `logWorkoutSet` succeeded -/
  persisted : Bool
deriving Repr

/-- `logSetAndConfirm` from `src/hooks/useWorkoutSession.ts`.  The `try`
block sets phase `logging`, persists, refetches, speaks; its `catch`
(reached when persistence or the refetch throws; the guarded speech
catches its own errors) surfaces the error string and moves to
`awaiting_yesno` without touching `pendingSet` or `transcript`; the
`finally` clears `loading`. -/
def logSetAndConfirm (today : List Char) (orc : LogOracles) (s : SessState)
    (setData : PendingSet) : LogResult :=
  let s1 : SessState := { s with phase := .logging, loading := true, errorMsg := none }
  let input := nextSetInput today s.todaySets setData
  match orc.persist with
  | .error _ =>
    { state :=
        { s1 with errorMsg := some failedLogMsg, phase := .awaiting_yesno, loading := false }
      events := [.phaseSet .logging, .phaseSet .awaiting_yesno]
      attempted := input, persisted := false }
  | .ok _ =>
    match orc.refetch with
    | .error _ =>
      { state :=
          { s1 with errorMsg := some failedLogMsg, phase := .awaiting_yesno, loading := false }
        events := [.phaseSet .logging, .phaseSet .awaiting_yesno]
        attempted := input, persisted := true }
    | .ok fresh =>
      { state :=
          { s1 with todaySets := some fresh, pendingSet := none, transcript := [],
                    phase := .idle, loading := false }
        events := [.phaseSet .logging, .phaseSet .idle]
        attempted := input, persisted := true }

/-- `rejectSetAndConfirm`: speak the acknowledgement (outcome
irrelevant to state), clear `pendingSet`, `transcript`, `error`, return
to `idle`. -/
def rejectSetAndConfirm (_speak : SpeakCall) (s : SessState) : SessState × List SEvent :=
  ({ s with pendingSet := none, transcript := [], phase := .idle, errorMsg := none },
   [.phaseSet .idle])

/-- Oracles of one `handleAutoYesNo` call. -/
structure AutoYNOracles where
  yn1 : YNCallEnv
  /-- the guarded `'Please say yes or no.'` re-prompt (no state effect) -/
  prompt : SpeakCall
  yn2 : YNCallEnv
  /-- the guarded final apology (no state effect) -/
  fallback : SpeakCall
  log : LogOracles
  reject : SpeakCall
deriving Repr

/-- `handleAutoYesNo` from `src/hooks/useWorkoutSession.ts`: ask once;
on `unknown` re-prompt and ask exactly once more; resolve `yes`/`no`
through `logSetAndConfirm`/`rejectSetAndConfirm`; after two `unknown`s
abandon the cycle (clear the pending set, return to `idle`).  Its
`catch` is unreachable in this model: none of the awaited calls rethrows
(the listener and the guarded speeches catch internally, and
`logSetAndConfirm` catches its own failures). -/
def handleAutoYesNo (today : List Char) (orc : AutoYNOracles) (s : SessState)
    (setData : PendingSet) : SessState × List SEvent :=
  let r1 := handleListenForYesNo orc.yn1
  match r1.1 with
  | .yes =>
    let lr := logSetAndConfirm today orc.log s setData
    (lr.state, r1.2 ++ lr.events)
  | .no =>
    let rr := rejectSetAndConfirm orc.reject s
    (rr.1, r1.2 ++ rr.2)
  | .unknown =>
    let r2 := handleListenForYesNo orc.yn2
    match r2.1 with
    | .yes =>
      let lr := logSetAndConfirm today orc.log s setData
      (lr.state, r1.2 ++ r2.2 ++ lr.events)
    | .no =>
      let rr := rejectSetAndConfirm orc.reject s
      (rr.1, r1.2 ++ r2.2 ++ rr.2)
    | .unknown =>
      ({ s with pendingSet := none, transcript := [], phase := .idle },
       r1.2 ++ r2.2 ++ [.phaseSet .idle])

/-- Oracles of one `processValidSet` call. -/
structure PVOracles where
  /-- the guarded confirmation speech (`'I heard ...'`) -/
  confirm : SpeakCall
  auto : AutoYNOracles
deriving Repr

/-- `processValidSet` from `src/hooks/useWorkoutSession.ts`: title-case
the exercise, store the pending set, set phase `confirming`, speak the
confirmation under the lock, and, only if the speech completed, run the
automatic yes/no flow.  A skipped speech (`null`) does nothing further;
a failed speech surfaces `'Speech failed'` and abandons to `idle`. -/
def processValidSet (today : List Char) (orc : PVOracles) (s : SessState)
    (parsed : ParsedWorkoutSet) : SessState × List SEvent :=
  let setData : PendingSet :=
    { exerciseName := toTitleCase parsed.exerciseName
      weight := parsed.weight
      reps := parsed.reps }
  let s1 : SessState := { s with pendingSet := some setData, phase := .confirming }
  if orc.confirm.busy then
    (s1, [.phaseSet .confirming])
  else if orc.confirm.ok then
    let ar := handleAutoYesNo today orc.auto s1 setData
    (ar.1, .phaseSet .confirming :: .confirmSpoken :: ar.2)
  else
    ({ s1 with errorMsg := some "Speech failed".toList, phase := .idle, pendingSet := none },
     [.phaseSet .confirming, .phaseSet .idle])

/-! ### Trace observations -/

/-- The phase after replaying a trace from an initial phase. -/
def phaseAfter (init : Phase) (tr : List SEvent) : Phase :=
  tr.foldl (fun ph e => match e with | .phaseSet p => p | _ => ph) init

/-- The phase in force at each `ynListen` event of a trace. -/
def ynListenPhases (init : Phase) : List SEvent → List Phase
  | [] => []
  | .ynListen :: tr => init :: ynListenPhases init tr
  | .phaseSet p :: tr => ynListenPhases p tr
  | .confirmSpoken :: tr => ynListenPhases init tr

/-! ### `workoutService.ts` — the persistence layer

`workoutService.ts` wraps the Supabase `workout_sets` table: it converts
between the snake_case row shape and the camelCase app shape, inserts a
row (the table assigns the `id`), and queries one day's rows ordered by
`exercise_name` ascending, then `set_number` ascending.  The table
itself (the Supabase client and the database behind it) is the external
collaborator: it is modelled as a list of rows plus the next fresh id.
The Supabase round trip can also fail; the source turns such failures
into thrown errors, which reach the orchestrator model through the
`LogOracles` error outcomes, so the functions below give the success
path's semantics over the modelled table. -/

/-- The database row shape (`WorkoutSetRow` in `types/workout.ts`). -/
structure WorkoutSetRow where
  id : Nat
  date : List Char
  exercise_name : List Char
  weight : ℚ
  reps : ℤ
  set_number : Nat
  user_id : Option (List Char)
deriving DecidableEq, Repr

/-- A row to insert (`Omit<WorkoutSetRow, 'id'>`). -/
structure WorkoutSetRowNoId where
  date : List Char
  exercise_name : List Char
  weight : ℚ
  reps : ℤ
  set_number : Nat
  user_id : Option (List Char)
deriving DecidableEq, Repr

/-- `rowToWorkoutSet` from `src/services/workoutService.ts`. -/
def rowToWorkoutSet (row : WorkoutSetRow) : WorkoutSet :=
  { id := row.id
    date := row.date
    exerciseName := row.exercise_name
    weight := row.weight
    reps := row.reps
    setNumber := row.set_number
    userId := row.user_id }

/-- `workoutSetToRow` from `src/services/workoutService.ts`. -/
def workoutSetToRow (set : CreateWorkoutSetInput) : WorkoutSetRowNoId :=
  { date := set.date
    exercise_name := set.exerciseName
    weight := set.weight
    reps := set.reps
    set_number := set.setNumber
    user_id := set.userId }

/-- Model of the external `workout_sets` table: its rows and the next
id the database will assign. -/
structure SupabaseDB where
  rows : List WorkoutSetRow
  nextId : Nat
deriving Repr

/-- The external insert (`.insert(row).select().single()`): the table
assigns the fresh id and returns the stored row. -/
def dbInsert (db : SupabaseDB) (r : WorkoutSetRowNoId) : WorkoutSetRow × SupabaseDB :=
  let row : WorkoutSetRow :=
    { id := db.nextId, date := r.date, exercise_name := r.exercise_name,
      weight := r.weight, reps := r.reps, set_number := r.set_number,
      user_id := r.user_id }
  (row, { rows := db.rows ++ [row], nextId := db.nextId + 1 })

/-- Ascending text comparison used to model the database's ordering on
`exercise_name` (lexicographic on the character codes). -/
def strLt : List Char → List Char → Bool
  | [], [] => false
  | [], _ :: _ => true
  | _ :: _, [] => false
  | a :: as, b :: bs => if a = b then strLt as bs else decide (a < b)

/-- The two-key ordering of `getWorkoutSetsByDate`'s query:
`exercise_name` ascending, then `set_number` ascending. -/
def rowLE (a b : WorkoutSetRow) : Bool :=
  strLt a.exercise_name b.exercise_name ||
    (a.exercise_name = b.exercise_name && a.set_number ≤ b.set_number)

/-- The external day query
(`.select('*').eq('date', date).order('exercise_name').order('set_number')`). -/
def dbSelectByDate (db : SupabaseDB) (d : List Char) : List WorkoutSetRow :=
  List.insertionSort (fun a b => rowLE a b = true)
    (db.rows.filter (fun row => row.date = d))

/-- `logWorkoutSet` from `src/services/workoutService.ts` (success
path): convert, insert, convert the stored row back. -/
def logWorkoutSet (db : SupabaseDB) (input : CreateWorkoutSetInput) :
    WorkoutSet × SupabaseDB :=
  let ins := dbInsert db (workoutSetToRow input)
  (rowToWorkoutSet ins.1, ins.2)

/-- `getWorkoutSetsByDate` from `src/services/workoutService.ts`
(success path): the ordered day query, rows converted to app shape. -/
def getWorkoutSetsByDate (db : SupabaseDB) (d : List Char) : List WorkoutSet :=
  (dbSelectByDate db d).map rowToWorkoutSet

/-- Two consecutive confirmed logs against the embedded persistence
layer: the first `logSetAndConfirm` persists into the table, its
refetch re-runs the day query (as `useTodaysWorkoutSets` does), and the
second call runs on the resulting state.  Returns the two persisted
payloads. -/
def seqTwoLogs (db : SupabaseDB) (today : List Char) (sd1 sd2 : PendingSet) :
    CreateWorkoutSetInput × CreateWorkoutSetInput :=
  let s0 : SessState :=
    { phase := .confirming, pendingSet := some sd1, loading := false, errorMsg := none,
      transcript := [], todaySets := some (getWorkoutSetsByDate db today) }
  let in1 := nextSetInput today s0.todaySets sd1
  let db1 := (logWorkoutSet db in1).2
  let r1 := logSetAndConfirm today
    { persist := .ok (), refetch := .ok (getWorkoutSetsByDate db1 today),
      speak := { busy := false, ok := true } } s0 sd1
  let s1 := { r1.state with pendingSet := some sd2 }
  let in2 := nextSetInput today s1.todaySets sd2
  let db2 := (logWorkoutSet db1 in2).2
  let r2 := logSetAndConfirm today
    { persist := .ok (), refetch := .ok (getWorkoutSetsByDate db2 today),
      speak := { busy := false, ok := true } } s1 sd2
  (r1.attempted, r2.attempted)

/-! ## Claim C1 — the audio mutex -/

/-- C1: for every task, if the audio-busy flag is false then `runAudioTask`
sets the flag, executes the task exactly once, propagates its value (or
rethrows its error), and the flag is false again after the task settles;
if the flag is already true the call returns the skipped result `null`
immediately, without executing the task and without changing the flag. -/
theorem runAudioTask_mutex {ε α : Type} (busy : Bool) (task : Except ε α) :
    (busy = false →
      (runAudioTask busy task).executions = 1 ∧
      (runAudioTask busy task).busyDuring = true ∧
      (runAudioTask busy task).outcome = task.map some ∧
      (runAudioTask busy task).busyAfter = false) ∧
    (busy = true →
      (runAudioTask busy task).executions = 0 ∧
      (runAudioTask busy task).outcome = .ok none ∧
      (runAudioTask busy task).busyAfter = true) := by
  cases busy <;> cases task <;> simp [runAudioTask, Except.map]

/-- Witness for C1 at concrete inputs: a free lock propagating the value
`3`, a free lock rethrowing an error, and a held lock skipping the task. -/
theorem runAudioTask_mutex_witness :
    (runAudioTask false (Except.ok 3) : AudioRunResult Unit Nat).outcome = .ok (some 3) ∧
    (runAudioTask false (Except.error ()) : AudioRunResult Unit Nat).outcome = .error () ∧
    (runAudioTask false (Except.error ()) : AudioRunResult Unit Nat).busyAfter = false ∧
    (runAudioTask true (Except.ok 3) : AudioRunResult Unit Nat).executions = 0 ∧
    (runAudioTask true (Except.ok 3) : AudioRunResult Unit Nat).busyAfter = true := by
  refine ⟨?_, ?_, ?_, ?_, ?_⟩
  · have h := (runAudioTask_mutex (ε := Unit) false (Except.ok 3)).1 rfl
    simpa [Except.map] using h.2.2.1
  · have h := (runAudioTask_mutex (α := Nat) false (Except.error ())).1 rfl
    simpa [Except.map] using h.2.2.1
  · exact ((runAudioTask_mutex (α := Nat) false (Except.error ())).1 rfl).2.2.2
  · exact ((runAudioTask_mutex (ε := Unit) true (Except.ok 3)).2 rfl).1
  · exact ((runAudioTask_mutex (ε := Unit) true (Except.ok 3)).2 rfl).2.2

/-! ## Claim C6 — the yes/no listener never rejects -/

/-- Helper: the inner loop of `listenForYesNoOnce`, with its escaped
exceptions flattened to `unknown` by the outer catch, computes the first
clear classification of the attempt sequence. -/
theorem ynLoop_firstClear (es : List YNEnv) :
    (match ynLoop es with | .ok a => a | .error _ => YNAns.unknown) =
      (firstClearAnswer es).getD .unknown := by
  induction es with
  | nil => simp [ynLoop, firstClearAnswer]
  | cons e rest ih =>
    cases hr : e.record with
    | error u => simp [ynLoop, firstClearAnswer, hr]
    | ok u =>
      cases ht : e.transcribe with
      | error v => simpa [ynLoop, firstClearAnswer, hr, ht] using ih
      | ok t =>
        cases hn : normalizeYesNo t <;>
          simp [ynLoop, firstClearAnswer, hr, ht, hn, ih]

/-- C6: for every behavior of the external recording and transcription
steps, `listenForYesNoOnce` returns a plain answer (never a rejected
promise): the first attempt whose transcript classifies unambiguously
yields `yes`/`no`, and it returns `unknown` both when no attempt in the
budget classifies and when an exception escapes an attempt (a recording
error aborts the scan). -/
theorem listenForYesNoOnce_total (e₀ e₁ e₂ : YNEnv) :
    listenForYesNoOnce e₀ e₁ e₂ = (firstClearAnswer [e₀, e₁, e₂]).getD .unknown := by
  simpa [listenForYesNoOnce] using ynLoop_firstClear [e₀, e₁, e₂]

/-! ## Claim C9 — `first_failed` semantics -/

/-- Helper: from loop index 1 onwards the listener can no longer return
`first_failed`. -/
theorem listenLoop_ne_first_failed (envs : List ChunkEnv) (a : Nat) (ha : a ≠ 0) :
    listenLoop envs a ≠ .first_failed := by
  induction envs generalizing a with
  | nil => simp [listenLoop]
  | cons e rest ih =>
    cases hr : e.record with
    | error u => simp [listenLoop, hr]
    | ok u =>
      cases ht : e.transcribe with
      | error v => simpa [listenLoop, hr, ht] using ih (a + 1) (Nat.succ_ne_zero a)
      | ok t =>
        cases hc : runChunk e.llm t with
        | some p => simp [listenLoop, hr, ht, hc]
        | none => simpa [listenLoop, hr, ht, hc, ha] using ih (a + 1) (Nat.succ_ne_zero a)

/-- C9: `listenForWorkoutSet` returns `first_failed` exactly when the
first chunk records and transcribes successfully yet both parsing tiers
fail; when the first chunk's transcription throws or times out the
listener instead proceeds silently with the remaining attempts (and can
then never return `first_failed`). -/
theorem listenForWorkoutSet_first_failed (envs : List ChunkEnv) :
    (listenForWorkoutSet envs = .first_failed ↔
      ∃ e rest t, envs = e :: rest ∧ e.record = .ok () ∧ e.transcribe = .ok t ∧
        runChunk e.llm t = none) ∧
    (∀ e rest, envs = e :: rest → e.record = .ok () → e.transcribe = .error () →
      listenForWorkoutSet envs = listenLoop rest 1 ∧
      listenForWorkoutSet envs ≠ .first_failed) := by
  constructor
  · cases envs with
    | nil => simp [listenForWorkoutSet, listenLoop]
    | cons e rest =>
      constructor
      · intro h
        refine ⟨e, rest, ?_⟩
        cases hr : e.record with
        | error u => simp [listenForWorkoutSet, listenLoop, hr] at h
        | ok u =>
          cases ht : e.transcribe with
          | error v =>
            exact absurd h (by
              simpa [listenForWorkoutSet, listenLoop, hr, ht] using
                listenLoop_ne_first_failed rest 1 one_ne_zero)
          | ok t =>
            cases hc : runChunk e.llm t with
            | some p => simp [listenForWorkoutSet, listenLoop, hr, ht, hc] at h
            | none => exact ⟨t, rfl, rfl, rfl, hc⟩
      · rintro ⟨e', rest', t, heq, hr, ht, hc⟩
        obtain ⟨rfl, rfl⟩ : e' = e ∧ rest' = rest := by
          constructor <;> injection heq <;> simp_all
        simp [listenForWorkoutSet, listenLoop, hr, ht, hc]
  · rintro e rest rfl hr ht
    refine ⟨by simp [listenForWorkoutSet, listenLoop, hr, ht], ?_⟩
    simpa [listenForWorkoutSet, listenLoop, hr, ht] using
      listenLoop_ne_first_failed rest 1 one_ne_zero

/-- Witness for C9: a first chunk that transcribes to unrelated speech
(and whose Tier-2 call throws) yields `first_failed`; a first chunk whose
transcription fails makes `first_failed` impossible. -/
theorem listenForWorkoutSet_first_failed_witness :
    listenForWorkoutSet
      [⟨.ok (), .ok "hello there".toList, .error ()⟩] = .first_failed ∧
    listenForWorkoutSet
      [⟨.ok (), .error (), .error ()⟩,
       ⟨.ok (), .ok "hello there".toList, .error ()⟩] ≠ .first_failed := by
  constructor
  · exact (listenForWorkoutSet_first_failed _).1.mpr
      ⟨_, _, "hello there".toList, rfl, rfl, rfl, by decide⟩
  · exact ((listenForWorkoutSet_first_failed _).2 _ _ rfl rfl rfl).2

/-! ## Claim C4 — the numeric-range gate on Tier-1 matches -/

/-- Helper: a positive result of the Tier-2 extractor always satisfies
the validated ranges (the source's post-validation). -/
theorem extract_ok_ranges (resp : Except Unit LlmJson) (n : List Char) (w : ℚ) (r : ℤ)
    (h : extractSetFromTranscript resp = .ok (.ok n w r)) :
    5 ≤ w ∧ w ≤ 1000 ∧ 1 ≤ r ∧ r ≤ 50 := by
  cases resp with
  | error u => simp [extractSetFromTranscript] at h
  | ok j =>
    rcases j with ⟨ok, name?, w?, r?, reason?⟩
    cases ok with
    | false => simp [extractSetFromTranscript] at h
    | true =>
      cases name? with
      | none => simp [extractSetFromTranscript, falsyStr] at h
      | some name =>
        cases w? with
        | none => simp [extractSetFromTranscript, falsyNum] at h
        | some w' =>
          cases r? with
          | none => simp [extractSetFromTranscript, falsyInt] at h
          | some r' =>
            simp only [extractSetFromTranscript] at h
            split_ifs at h with h1 h2 h3 h4 h5 h6 <;>
              simp only [Except.ok.injEq, ExtractResult.ok.injEq, reduceCtorEq] at h
            · obtain ⟨-, rfl, rfl⟩ := h
              push_neg at h3 h4
              exact ⟨h3.1, h3.2, h4.1, h4.2⟩
            · exact absurd trivial h1

/-- Helper: a parsed set produced by the Tier-2 leg of a chunk satisfies
the validated ranges. -/
theorem llmFallback_ranges (el : Except Unit LlmJson) (q : ParsedWorkoutSet)
    (h : llmFallback el = some q) :
    5 ≤ q.weight ∧ q.weight ≤ 1000 ∧ 1 ≤ q.reps ∧ q.reps ≤ 50 := by
  unfold llmFallback at h
  cases he : extractSetFromTranscript el with
  | error u => simp [he] at h
  | ok res =>
    cases res with
    | notOk reason => simp [he] at h
    | ok n w r =>
      simp only [he, Option.some.injEq] at h
      subst h
      simpa using extract_ok_ranges el n w r he

/-- C4: in the workout-set listener, a Tier-1 parse whose weight is
outside `[5, 1000]` or whose reps is outside `[1, 50]` is discarded by
the range gate (treated as no Tier-1 match); the chunk's outcome is then
exactly the Tier-2 extractor's outcome on that transcript, and a chunk
success can only carry a range-valid set — never the out-of-range Tier-1
triple. -/
theorem tier1_range_gate (t : List Char) (p : ParsedWorkoutSet) (el : Except Unit LlmJson)
    (hp : parseWorkoutSet t = some p)
    (hout : p.weight < 5 ∨ p.weight > 1000 ∨ p.reps < 1 ∨ p.reps > 50) :
    tier1Gate (parseWorkoutSet t) = none ∧
    runChunk el t = llmFallback el ∧
    ∀ q, runChunk el t = some q →
      (5 ≤ q.weight ∧ q.weight ≤ 1000 ∧ 1 ≤ q.reps ∧ q.reps ≤ 50) ∧ q ≠ p := by
  have hgate : tier1Gate (parseWorkoutSet t) = none := by
    rw [hp]
    simp [tier1Gate, hout]
  refine ⟨hgate, by simp [runChunk, hgate], ?_⟩
  intro q hq
  rw [runChunk, hgate] at hq
  have hrange := llmFallback_ranges el q hq
  refine ⟨hrange, ?_⟩
  intro hqp
  subst hqp
  rcases hout with h | h | h | h
  · exact absurd hrange.1 (not_le.mpr h)
  · exact absurd hrange.2.1 (not_le.mpr h)
  · exact absurd hrange.2.2.1 (not_le.mpr h)
  · exact absurd hrange.2.2.2 (not_le.mpr h)

/-- Witness for C4: the transcript `"bench press 1500 3"` parses cleanly
via Tier 1 with weight 1500; the gate discards it and the chunk result is
the Tier-2 result (here a valid 200-pound set), not the Tier-1 triple. -/
theorem tier1_range_gate_witness :
    parseWorkoutSet "bench press 1500 3".toList =
      some ⟨"bench press".toList, 1500, 3⟩ ∧
    tier1Gate (parseWorkoutSet "bench press 1500 3".toList) = none ∧
    runChunk (.ok ⟨true, some "bench press".toList, some 200, some 3, none⟩)
      "bench press 1500 3".toList = some ⟨"bench press".toList, 200, 3⟩ ∧
    (⟨"bench press".toList, 200, 3⟩ : ParsedWorkoutSet) ≠
      ⟨"bench press".toList, 1500, 3⟩ := by
  have hp : parseWorkoutSet "bench press 1500 3".toList =
      some ⟨"bench press".toList, 1500, 3⟩ := by decide
  have h := tier1_range_gate "bench press 1500 3".toList
    ⟨"bench press".toList, 1500, 3⟩
    (.ok ⟨true, some "bench press".toList, some 200, some 3, none⟩)
    hp (by norm_num)
  have hrun : runChunk (.ok ⟨true, some "bench press".toList, some 200, some 3, none⟩)
      "bench press 1500 3".toList = some ⟨"bench press".toList, 200, 3⟩ := by decide
  exact ⟨hp, h.1, hrun, (h.2.2 _ hrun).2⟩

/-! ## Claim C5 — persistence-failure handling keeps the pending set -/

/-- C5: when persisting a confirmed set fails, `logSetAndConfirm` sets
the user-visible error string, moves the phase to `awaiting_yesno`, and
leaves `pendingSet` and the transcript untouched (available for a manual
retry); the same holds when the refetch after persisting throws; the
pending set and transcript are cleared only on the fully successful
path, which returns to `idle`. -/
theorem logSetAndConfirm_failure_paths (today : List Char) (orc : LogOracles)
    (s : SessState) (d : PendingSet) :
    (orc.persist = .error () →
      (logSetAndConfirm today orc s d).state.errorMsg = some failedLogMsg ∧
      (logSetAndConfirm today orc s d).state.phase = .awaiting_yesno ∧
      (logSetAndConfirm today orc s d).state.pendingSet = s.pendingSet ∧
      (logSetAndConfirm today orc s d).state.transcript = s.transcript ∧
      (logSetAndConfirm today orc s d).persisted = false) ∧
    (orc.persist = .ok () → orc.refetch = .error () →
      (logSetAndConfirm today orc s d).state.errorMsg = some failedLogMsg ∧
      (logSetAndConfirm today orc s d).state.phase = .awaiting_yesno ∧
      (logSetAndConfirm today orc s d).state.pendingSet = s.pendingSet ∧
      (logSetAndConfirm today orc s d).state.transcript = s.transcript) ∧
    (∀ fresh, orc.persist = .ok () → orc.refetch = .ok fresh →
      (logSetAndConfirm today orc s d).state.pendingSet = none ∧
      (logSetAndConfirm today orc s d).state.transcript = [] ∧
      (logSetAndConfirm today orc s d).state.phase = .idle) := by
  cases hp : orc.persist <;> cases hrf : orc.refetch <;>
    simp [logSetAndConfirm, hp, hrf]

/-- Witness for C5 at a concrete state: a failing persistence keeps the
pending set and surfaces the error; a succeeding one clears it. -/
theorem logSetAndConfirm_failure_paths_witness :
    (logSetAndConfirm "2026-10-11".toList
      ⟨.error (), .ok [], ⟨false, true⟩⟩
      ⟨.logging, some ⟨"Leg Press".toList, 160, 10⟩, false, none, "t".toList, some []⟩
      ⟨"Leg Press".toList, 160, 10⟩).state.pendingSet =
        some ⟨"Leg Press".toList, 160, 10⟩ ∧
    (logSetAndConfirm "2026-10-11".toList
      ⟨.error (), .ok [], ⟨false, true⟩⟩
      ⟨.logging, some ⟨"Leg Press".toList, 160, 10⟩, false, none, "t".toList, some []⟩
      ⟨"Leg Press".toList, 160, 10⟩).state.phase = .awaiting_yesno ∧
    (logSetAndConfirm "2026-10-11".toList
      ⟨.ok (), .ok [], ⟨false, true⟩⟩
      ⟨.logging, some ⟨"Leg Press".toList, 160, 10⟩, false, none, "t".toList, some []⟩
      ⟨"Leg Press".toList, 160, 10⟩).state.pendingSet = none := by
  refine ⟨?_, ?_, ?_⟩
  · exact ((logSetAndConfirm_failure_paths _ _ _ _).1 rfl).2.2.1
  · exact ((logSetAndConfirm_failure_paths _ _ _ _).1 rfl).2.1
  · exact ((logSetAndConfirm_failure_paths _ _ _ _).2.2 [] rfl rfl).1

/-! ## Claim C8 — set numbering per exercise per day -/

/-- Counting an exercise's sets in the ordered day query equals counting
its rows of that date in the table: the query's ordering is a
permutation of the date filter, and the row-to-app conversion preserves
the exercise name. -/
theorem count_getWorkoutSetsByDate (db : SupabaseDB) (d e : List Char) :
    ((getWorkoutSetsByDate db d).filter (fun s => s.exerciseName = e)).length =
      ((db.rows.filter (fun row => row.date = d)).filter
        (fun row => row.exercise_name = e)).length := by
  unfold getWorkoutSetsByDate dbSelectByDate
  rw [List.filter_map, List.length_map]
  rw [show ((fun s => decide (s.exerciseName = e)) ∘ rowToWorkoutSet) =
      fun row => decide (row.exercise_name = e) from funext fun row => rfl]
  exact ((List.perm_insertionSort _ _).filter _).length_eq

/-- C8: every logged set's `setNumber` is the count of already-logged
sets of the same exercise name among the day's sets, plus one; against
the embedded persistence layer, two consecutive confirmed logs of the
same exercise on one day therefore produce `setNumber` 1 then 2, no
matter which other exercises already have sets that day. -/
theorem setNumber_per_exercise_per_day (db : SupabaseDB) (today e : List Char)
    (sd1 sd2 : PendingSet)
    (h1 : sd1.exerciseName = e) (h2 : sd2.exerciseName = e)
    (h0 : ((getWorkoutSetsByDate db today).filter
      (fun x => x.exerciseName = e)).length = 0) :
    (∀ (orc : LogOracles) (s : SessState) (d : PendingSet),
      (logSetAndConfirm today orc s d).attempted.setNumber =
        ((s.todaySets.getD []).filter
          (fun x => x.exerciseName = d.exerciseName)).length + 1) ∧
    (seqTwoLogs db today sd1 sd2).1.setNumber = 1 ∧
    (seqTwoLogs db today sd1 sd2).2.setNumber = 2 := by
  subst h1
  have hrow : ((db.rows.filter (fun row => row.date = today)).filter
      (fun row => row.exercise_name = sd1.exerciseName)).length = 0 := by
    rw [← count_getWorkoutSetsByDate]
    exact h0
  refine ⟨?_, ?_, ?_⟩
  · intro orc s d
    cases hp : orc.persist <;> cases hrf : orc.refetch <;>
      simp [logSetAndConfirm, nextSetInput, hp, hrf]
  · simp [seqTwoLogs, logSetAndConfirm, nextSetInput, h0]
  · have hsecond : (seqTwoLogs db today sd1 sd2).2 =
        nextSetInput today
          (some (getWorkoutSetsByDate
            (logWorkoutSet db
              (nextSetInput today (some (getWorkoutSetsByDate db today)) sd1)).2
            today)) sd2 := by
      simp [seqTwoLogs, logSetAndConfirm]
    rw [hsecond]
    simp only [nextSetInput, Option.getD_some]
    rw [h2, count_getWorkoutSetsByDate]
    simp only [logWorkoutSet, dbInsert, workoutSetToRow, nextSetInput]
    simp [List.filter_append, hrow, h0]
    rw [List.length_eq_zero, List.filter_eq_nil_iff] at hrow
    intro a ha hname hdate
    exact hrow a (List.mem_filter.mpr ⟨ha, by simp [hdate]⟩) (by simp [hname])

/-- Witness for C8: one prior `Squat` set exists in the table for today;
two sequential `Leg Press` logs still receive set numbers 1 and 2. -/
theorem setNumber_per_exercise_per_day_witness :
    (seqTwoLogs ⟨[⟨1, "2026-10-11".toList, "Squat".toList, 225, 5, 1, none⟩], 2⟩
      "2026-10-11".toList
      ⟨"Leg Press".toList, 160, 10⟩ ⟨"Leg Press".toList, 160, 10⟩).1.setNumber = 1 ∧
    (seqTwoLogs ⟨[⟨1, "2026-10-11".toList, "Squat".toList, 225, 5, 1, none⟩], 2⟩
      "2026-10-11".toList
      ⟨"Leg Press".toList, 160, 10⟩ ⟨"Leg Press".toList, 160, 10⟩).2.setNumber = 2 := by
  have h := setNumber_per_exercise_per_day
    ⟨[⟨1, "2026-10-11".toList, "Squat".toList, 225, 5, 1, none⟩], 2⟩
    "2026-10-11".toList "Leg Press".toList
    ⟨"Leg Press".toList, 160, 10⟩ ⟨"Leg Press".toList, 160, 10⟩
    rfl rfl (by decide)
  exact ⟨h.2.1, h.2.2⟩

/-! ## Claim C7 — the phase while yes/no listening runs -/

/-- Helper: in the automatic yes/no flow, every actual start of yes/no
listening happens while the phase is still whatever it was on entry (the
flow emits no `setPhase` before its listens), and `awaiting_yesno` can
only be entered by the logging step's catch. -/
theorem handleAutoYesNo_trace (today : List Char) (orc : AutoYNOracles)
    (s : SessState) (setData : PendingSet) :
    (∀ init : Phase, ∀ p ∈ ynListenPhases init (handleAutoYesNo today orc s setData).2,
      p = init) ∧
    (SEvent.phaseSet .awaiting_yesno ∈ (handleAutoYesNo today orc s setData).2 →
      orc.log.persist = .error () ∨ orc.log.refetch = .error ()) := by
  rcases orc with ⟨⟨b1, a1⟩, pr, ⟨b2, a2⟩, fb, ⟨lp, lrf, lsp⟩, rj⟩
  cases b1 <;> cases a1 <;> cases b2 <;> cases a2 <;> cases lp <;> cases lrf <;>
    simp [handleAutoYesNo, handleListenForYesNo, logSetAndConfirm,
      rejectSetAndConfirm, ynListenPhases]

/-- C7 (amended): after the spoken confirmation is delivered, the
orchestrator proceeds to yes/no voice listening while the phase is still
`confirming` — no transition to `awaiting_yesno` happens before the
listening; `awaiting_yesno` is entered only when the logging step fails
(persistence or the refetch throws). -/
theorem processValidSet_phase_during_listening (today : List Char) (orc : PVOracles)
    (s : SessState) (parsed : ParsedWorkoutSet) :
    (∀ p ∈ ynListenPhases s.phase (processValidSet today orc s parsed).2,
      p = Phase.confirming) ∧
    (SEvent.phaseSet .awaiting_yesno ∈ (processValidSet today orc s parsed).2 →
      orc.auto.log.persist = .error () ∨ orc.auto.log.refetch = .error ()) := by
  rcases orc with ⟨⟨cb, cok⟩, auto⟩
  cases cb with
  | true => simp [processValidSet, ynListenPhases]
  | false =>
    cases cok with
    | false => simp [processValidSet, ynListenPhases]
    | true =>
      have h := handleAutoYesNo_trace today auto
        { s with
            pendingSet := some
              { exerciseName := toTitleCase parsed.exerciseName
                weight := parsed.weight
                reps := parsed.reps }
            phase := .confirming }
        { exerciseName := toTitleCase parsed.exerciseName
          weight := parsed.weight
          reps := parsed.reps }
      constructor
      · intro p hp
        simp only [processValidSet, Bool.false_eq_true, if_false, if_true,
          ynListenPhases] at hp
        exact h.1 .confirming p hp
      · intro hm
        simp only [processValidSet, Bool.false_eq_true, if_false, if_true,
          List.mem_cons] at hm
        rcases hm with hm | hm | hm
        · exact absurd hm (by simp)
        · exact absurd hm (by simp)
        · exact h.2 hm

/-- Counterexample for C7 as stated: a concrete confirmed-by-speech run
(first answer ambiguous, second `no`) in which both yes/no listens start
while the phase is still `confirming` and the phase never transitions to
`awaiting_yesno` between the spoken confirmation and the listening. -/
theorem processValidSet_awaiting_yesno_counterexample :
    (processValidSet "2026-10-11".toList
      ⟨⟨false, true⟩,
        ⟨⟨false, .unknown⟩, ⟨false, true⟩, ⟨false, .no⟩, ⟨false, true⟩,
         ⟨.ok (), .ok [], ⟨false, true⟩⟩, ⟨false, true⟩⟩⟩
      ⟨.transcribing, none, false, none, ['x'], none⟩
      ⟨"leg press".toList, 160, 10⟩).2 =
      [.phaseSet .confirming, .confirmSpoken, .ynListen, .ynListen, .phaseSet .idle] ∧
    ynListenPhases .transcribing
      (processValidSet "2026-10-11".toList
        ⟨⟨false, true⟩,
          ⟨⟨false, .unknown⟩, ⟨false, true⟩, ⟨false, .no⟩, ⟨false, true⟩,
           ⟨.ok (), .ok [], ⟨false, true⟩⟩, ⟨false, true⟩⟩⟩
        ⟨.transcribing, none, false, none, ['x'], none⟩
        ⟨"leg press".toList, 160, 10⟩).2 = [.confirming, .confirming] ∧
    SEvent.phaseSet .awaiting_yesno ∉
      (processValidSet "2026-10-11".toList
        ⟨⟨false, true⟩,
          ⟨⟨false, .unknown⟩, ⟨false, true⟩, ⟨false, .no⟩, ⟨false, true⟩,
           ⟨.ok (), .ok [], ⟨false, true⟩⟩, ⟨false, true⟩⟩⟩
        ⟨.transcribing, none, false, none, ['x'], none⟩
        ⟨"leg press".toList, 160, 10⟩).2 := by
  refine ⟨by decide, by decide, by decide⟩

/-- Witness for C7's amended theorem at a concrete run: the listen-time
phase list of the counterexample run is all `confirming`, and with a
failing persistence the entered `awaiting_yesno` traces back to the
persistence error. -/
theorem processValidSet_phase_during_listening_witness :
    (Phase.confirming = Phase.confirming) ∧
    ((⟨.error (), .ok [], ⟨false, true⟩⟩ : LogOracles).persist = .error () ∨
      (⟨.error (), .ok [], ⟨false, true⟩⟩ : LogOracles).refetch = .error ()) := by
  constructor
  · exact (processValidSet_phase_during_listening "2026-10-11".toList
      ⟨⟨false, true⟩,
        ⟨⟨false, .unknown⟩, ⟨false, true⟩, ⟨false, .no⟩, ⟨false, true⟩,
         ⟨.ok (), .ok [], ⟨false, true⟩⟩, ⟨false, true⟩⟩⟩
      ⟨.transcribing, none, false, none, ['x'], none⟩
      ⟨"leg press".toList, 160, 10⟩).1 .confirming (by decide)
  · exact (processValidSet_phase_during_listening "2026-10-11".toList
      ⟨⟨false, true⟩,
        ⟨⟨false, .yes⟩, ⟨false, true⟩, ⟨false, .no⟩, ⟨false, true⟩,
         ⟨.error (), .ok [], ⟨false, true⟩⟩, ⟨false, true⟩⟩⟩
      ⟨.transcribing, none, false, none, ['x'], none⟩
      ⟨"leg press".toList, 160, 10⟩).2 (by decide)

/-! ## Substring infrastructure shared by C3 and C10 -/

theorem hasPrefixCh_iff (p s : List Char) : hasPrefixCh p s = true ↔ p <+: s := by
  induction p generalizing s with
  | nil => simp [hasPrefixCh]
  | cons a p' ih =>
    cases s with
    | nil => simp [hasPrefixCh]
    | cons b s' =>
      simp [hasPrefixCh, Bool.and_eq_true, decide_eq_true_eq, ih, List.cons_prefix_cons]

theorem containsSub_iff (p s : List Char) : containsSub p s = true ↔ p <:+: s := by
  induction s with
  | nil =>
    simp [containsSub, hasPrefixCh_iff]
  | cons c cs ih =>
    simp [containsSub, Bool.or_eq_true, hasPrefixCh_iff, ih, List.infix_cons_iff]

/-- Collapsing distributes over an append whose right part does not start
with whitespace (no whitespace run crosses the boundary). -/
theorem collapseGo_append (x y : List Char)
    (hy : ∀ c t, y = c :: t → isWS c = false) (b : Bool) :
    collapseGo b (x ++ y) = collapseGo b x ++ collapseGo false y := by
  induction x generalizing b with
  | nil =>
    cases y with
    | nil => simp [collapseGo]
    | cons c t =>
      have hc := hy c t rfl
      cases b <;> simp [collapseGo, hc]
  | cons a x' ih =>
    by_cases ha : isWS a = true
    · cases b <;> simp [collapseGo, ha, ih]
    · simp only [Bool.not_eq_true] at ha
      cases b <;> simp [collapseGo, ha, ih]

/-- `trimStart` keeps a mid-string occurrence whose first character is
not whitespace. -/
theorem trimLeft_mid (u p v : List Char) (hp : ∃ c t, p = c :: t ∧ isWS c = false) :
    ∃ u', trimLeft (u ++ p ++ v) = u' ++ p ++ v := by
  obtain ⟨c, t, rfl, hc⟩ := hp
  unfold trimLeft
  rw [List.append_assoc, List.dropWhile_append]
  by_cases hu : (u.dropWhile isWS).isEmpty
  · refine ⟨[], ?_⟩
    simp [hu, List.dropWhile_cons, hc]
  · refine ⟨u.dropWhile isWS, ?_⟩
    simp [hu, List.append_assoc]

/-- `trimEnd` keeps a mid-string occurrence whose last character is not
whitespace. -/
theorem trimRight_mid (u p v : List Char)
    (hp : ∃ c t, p.reverse = c :: t ∧ isWS c = false) :
    ∃ v', trimRight (u ++ p ++ v) = u ++ p ++ v' := by
  obtain ⟨c, t, hrev, hc⟩ := hp
  unfold trimRight
  have hsplit : (u ++ p ++ v).reverse = v.reverse ++ (p.reverse ++ u.reverse) := by
    simp [List.reverse_append, List.append_assoc]
  rw [hsplit, List.dropWhile_append]
  by_cases hv : (v.reverse.dropWhile isWS).isEmpty
  · refine ⟨[], ?_⟩
    rw [if_pos hv, hrev, List.cons_append, List.dropWhile_cons, if_neg (by simp [hc])]
    rw [← List.cons_append, ← hrev]
    simp [List.reverse_append]
  · refine ⟨(v.reverse.dropWhile isWS).reverse, ?_⟩
    rw [if_neg hv]
    simp [List.reverse_append, List.append_assoc]

/-- An occurrence of a phrase that contains no comma/period, starts and
ends with non-whitespace, and collapses to itself, survives the whole
normalization pipeline of `parseWorkoutSet`. -/
theorem phrase_infix_normalize (p raw : List Char)
    (hmap : p.map punctToSpace = p)
    (hcoll : ∀ v, collapseGo false (p ++ v) = p ++ collapseGo false v)
    (hhead : ∃ c t, p = c :: t ∧ isWS c = false)
    (hlast : ∃ c t, p.reverse = c :: t ∧ isWS c = false)
    (h : p <:+: raw.map lowerChar) :
    p <:+: normalize raw := by
  obtain ⟨u, v, huv⟩ := h
  have h2 : (raw.map lowerChar).map punctToSpace =
      u.map punctToSpace ++ p ++ v.map punctToSpace := by
    rw [← huv]
    simp [List.map_append, hmap]
  obtain ⟨c, t, hpeq, hc⟩ := hhead
  have hhd : ∀ c' t', p ++ v.map punctToSpace = c' :: t' → isWS c' = false := by
    intro c' t' h'
    rw [hpeq] at h'
    simp only [List.cons_append, List.cons.injEq] at h'
    exact h'.1 ▸ hc
  have h3 : collapseWS ((raw.map lowerChar).map punctToSpace) =
      collapseGo false (u.map punctToSpace) ++ p ++ collapseGo false (v.map punctToSpace) :=
    calc collapseWS ((raw.map lowerChar).map punctToSpace)
        = collapseGo false (u.map punctToSpace ++ (p ++ v.map punctToSpace)) := by
          unfold collapseWS
          rw [h2, List.append_assoc]
      _ = collapseGo false (u.map punctToSpace) ++
            collapseGo false (p ++ v.map punctToSpace) :=
          collapseGo_append _ _ hhd false
      _ = collapseGo false (u.map punctToSpace) ++
            (p ++ collapseGo false (v.map punctToSpace)) := by rw [hcoll]
      _ = collapseGo false (u.map punctToSpace) ++ p ++
            collapseGo false (v.map punctToSpace) := by rw [List.append_assoc]
  obtain ⟨u', hu'⟩ := trimLeft_mid (collapseGo false (u.map punctToSpace)) p
    (collapseGo false (v.map punctToSpace)) ⟨c, t, hpeq, hc⟩
  obtain ⟨v', hv'⟩ := trimRight_mid u' p (collapseGo false (v.map punctToSpace)) hlast
  refine ⟨u', v', ?_⟩
  show u' ++ p ++ v' = normalize raw
  unfold normalize trimStr
  rw [h3, hu', hv']

theorem collapse_sameWeight (v : List Char) :
    collapseGo false (sameWeightLit ++ v) = sameWeightLit ++ collapseGo false v := by
  simp [sameWeightLit, collapseGo, isWS]

theorem collapse_sameReps (v : List Char) :
    collapseGo false (sameRepsLit ++ v) = sameRepsLit ++ collapseGo false v := by
  simp [sameRepsLit, collapseGo, isWS]

theorem collapse_sameAs (v : List Char) :
    collapseGo false (sameAsLit ++ v) = sameAsLit ++ collapseGo false v := by
  simp [sameAsLit, collapseGo, isWS]

/-! ## Claim C3 — contextual phrases force Tier 2 -/

/-- C3: a transcript that contains (case-insensitively) `'same weight'`,
`'same reps'` or `'same as'` is always rejected by the Tier-1 parser —
`parseWorkoutSet` returns `none`, deferring to the Tier-2 extractor. -/
theorem parseWorkoutSet_contextual_phrases (raw : List Char)
    (h : sameWeightLit <:+: raw.map lowerChar ∨ sameRepsLit <:+: raw.map lowerChar ∨
      sameAsLit <:+: raw.map lowerChar) :
    parseWorkoutSet raw = none := by
  have hnorm : containsSub sameWeightLit (normalize raw) = true ∨
      containsSub sameRepsLit (normalize raw) = true ∨
      containsSub sameAsLit (normalize raw) = true := by
    rcases h with h | h | h
    · exact Or.inl ((containsSub_iff _ _).mpr
        (phrase_infix_normalize _ _ rfl collapse_sameWeight
          ⟨'s', ['a', 'm', 'e', ' ', 'w', 'e', 'i', 'g', 'h', 't'], rfl, rfl⟩
          ⟨'t', ['h', 'g', 'i', 'e', 'w', ' ', 'e', 'm', 'a', 's'], rfl, rfl⟩ h))
    · exact Or.inr (Or.inl ((containsSub_iff _ _).mpr
        (phrase_infix_normalize _ _ rfl collapse_sameReps
          ⟨'s', ['a', 'm', 'e', ' ', 'r', 'e', 'p', 's'], rfl, rfl⟩
          ⟨'s', ['p', 'e', 'r', ' ', 'e', 'm', 'a', 's'], rfl, rfl⟩ h)))
    · exact Or.inr (Or.inr ((containsSub_iff _ _).mpr
        (phrase_infix_normalize _ _ rfl collapse_sameAs
          ⟨'s', ['a', 'm', 'e', ' ', 'a', 's'], rfl, rfl⟩
          ⟨'s', ['a', ' ', 'e', 'm', 'a', 's'], rfl, rfl⟩ h)))
  unfold parseWorkoutSet
  rcases hnorm with h | h | h <;> simp [h]

/-- Witness for C3: `'Same Weight for 12'` (mixed case) and
`'bench same as last time 5'` are both rejected by Tier 1. -/
theorem parseWorkoutSet_contextual_phrases_witness :
    parseWorkoutSet "Same Weight for 12".toList = none ∧
    parseWorkoutSet "bench same as last time 5".toList = none := by
  constructor
  · exact parseWorkoutSet_contextual_phrases _ (Or.inl (by decide))
  · exact parseWorkoutSet_contextual_phrases _ (Or.inr (Or.inr (by decide)))

/-! ## Claim C10 — affirmative terms take precedence in `normalizeYesNo` -/

/-- Every string splits into leading whitespace, its trim, and trailing
whitespace. -/
theorem trimStr_decomp (s : List Char) :
    ∃ a b, s = a ++ trimStr s ++ b ∧ (∀ c ∈ a, isWS c = true) ∧ (∀ c ∈ b, isWS c = true) := by
  refine ⟨s.takeWhile isWS, ((trimLeft s).reverse.takeWhile isWS).reverse, ?_, ?_, ?_⟩
  · have h2 : trimLeft s = trimStr s ++ ((trimLeft s).reverse.takeWhile isWS).reverse :=
      calc trimLeft s = ((trimLeft s).reverse).reverse := (List.reverse_reverse _).symm
        _ = ((trimLeft s).reverse.takeWhile isWS ++
              (trimLeft s).reverse.dropWhile isWS).reverse := by
            rw [List.takeWhile_append_dropWhile]
        _ = ((trimLeft s).reverse.dropWhile isWS).reverse ++
              ((trimLeft s).reverse.takeWhile isWS).reverse := by
            rw [List.reverse_append]
        _ = trimStr s ++ ((trimLeft s).reverse.takeWhile isWS).reverse := rfl
    calc s = s.takeWhile isWS ++ trimLeft s := (List.takeWhile_append_dropWhile _ _).symm
      _ = s.takeWhile isWS ++ (trimStr s ++ ((trimLeft s).reverse.takeWhile isWS).reverse) := by
          rw [← h2]
      _ = s.takeWhile isWS ++ trimStr s ++ ((trimLeft s).reverse.takeWhile isWS).reverse := by
          rw [List.append_assoc]
  · intro c hc
    exact List.mem_takeWhile_imp hc
  · intro c hc
    rw [List.mem_reverse] at hc
    exact List.mem_takeWhile_imp hc

theorem isWS_not_punct (c : Char) (h : isWS c = true) : isYNPunct c = false := by
  simp only [isWS, Bool.or_eq_true, decide_eq_true_eq] at h
  rcases h with ((rfl | rfl) | rfl) | rfl <;> decide

/-- Stripping the yes/no punctuation leaves pure-whitespace strings
unchanged. -/
theorem filter_ws_id (l : List Char) (h : ∀ c ∈ l, isWS c = true) :
    l.filter (fun c => !isYNPunct c) = l := by
  apply List.filter_eq_self.mpr
  intro a ha
  simp [isWS_not_punct a (h a ha)]

/-- An occurrence of a whitespace-free pattern inside an all-whitespace
left border lies in the remainder. -/
theorem infix_drop_ws_left (p a m : List Char) (hp : p ≠ [])
    (hpc : ∀ c ∈ p, isWS c = false) (ha : ∀ c ∈ a, isWS c = true)
    (h : p <:+: a ++ m) : p <:+: m := by
  induction a with
  | nil => simpa using h
  | cons c a' ih =>
    rw [List.cons_append] at h
    rcases List.infix_cons_iff.mp h with hpre | hinf
    · exfalso
      obtain ⟨r, hr⟩ := hpre
      cases p with
      | nil => exact hp rfl
      | cons p0 ps =>
        rw [List.cons_append] at hr
        injection hr with h1 h2
        have hws := ha c (List.mem_cons_self _ _)
        have hnws := hpc p0 (List.mem_cons_self _ _)
        rw [h1] at hnws
        exact absurd hws (by simp [hnws])
    · exact ih (fun c' hc' => ha c' (List.mem_cons_of_mem _ hc')) hinf

/-- An occurrence of a whitespace-free pattern inside an all-whitespace
right border lies in the remainder. -/
theorem infix_drop_ws_right (p m b : List Char) (hp : p ≠ [])
    (hpc : ∀ c ∈ p, isWS c = false) (hb : ∀ c ∈ b, isWS c = true)
    (h : p <:+: m ++ b) : p <:+: m := by
  have h' : p.reverse <:+: b.reverse ++ m.reverse := by
    have h2 := List.reverse_infix.mpr h
    simpa [List.reverse_append] using h2
  have h3 := infix_drop_ws_left p.reverse b.reverse m.reverse
    (by simpa using hp)
    (fun c hc => hpc c (List.mem_reverse.mp hc))
    (fun c hc => hb c (List.mem_reverse.mp hc)) h'
  exact List.reverse_infix.mp h3

/-- C10: a transcript that — lowercased and with `.,!?` stripped —
contains an affirmative term (`yes`, `yeah`, `yep`) is classified `yes`
by `normalizeYesNo`, even when it also contains a negative term: the
negative terms are consulted only when no affirmative term occurs. -/
theorem normalizeYesNo_affirmative_first (t : List Char)
    (h : yesLit <:+: (t.map lowerChar).filter (fun c => !isYNPunct c) ∨
      yeahLit <:+: (t.map lowerChar).filter (fun c => !isYNPunct c) ∨
      yepLit <:+: (t.map lowerChar).filter (fun c => !isYNPunct c)) :
    normalizeYesNo t = .yes := by
  have bridge : ∀ p : List Char, p ≠ [] → (∀ c ∈ p, isWS c = false) →
      p <:+: (t.map lowerChar).filter (fun c => !isYNPunct c) →
      p <:+: (trimStr (t.map lowerChar)).filter (fun c => !isYNPunct c) := by
    intro p hp hpc hinf
    obtain ⟨a, b, hdec, haw, hbw⟩ := trimStr_decomp (t.map lowerChar)
    rw [hdec, List.filter_append, List.filter_append, filter_ws_id a haw,
      filter_ws_id b hbw] at hinf
    exact infix_drop_ws_left p a _ hp hpc haw
      (infix_drop_ws_right p _ b hp hpc hbw hinf)
  rcases h with h | h | h
  · have hf := bridge yesLit (by decide) (by decide) h
    unfold normalizeYesNo
    simp [(containsSub_iff _ _).mpr hf]
  · have hf := bridge yeahLit (by decide) (by decide) h
    unfold normalizeYesNo
    simp [(containsSub_iff _ _).mpr hf]
  · have hf := bridge yepLit (by decide) (by decide) h
    unfold normalizeYesNo
    simp [(containsSub_iff _ _).mpr hf]

/-- Witness for C10: `' Yeah, no. '` contains both an affirmative and a
negative term and is classified `yes`. -/
theorem normalizeYesNo_affirmative_first_witness :
    normalizeYesNo " Yeah, no. ".toList = .yes ∧
    containsSub noLit ((" Yeah, no. ".toList.map lowerChar).filter
      (fun c => !isYNPunct c)) = true := by
  constructor
  · exact normalizeYesNo_affirmative_first _ (Or.inr (Or.inl (by decide)))
  · decide

/-! ## Infrastructure for Claim C2 — the Tier-1 grammar

The spec's grammar
`<exercise words> <weight number> [lbs|pounds] [for|x] <reps number> [reps]`
is read at the token level: the normalized text is the space-join of a
nonempty sequence of all-letter exercise words, a digit word (weight),
an optional `lbs`/`pounds` token, an optional `for`/`x` token, a digit
word (reps) and an optional `reps` token. -/

/-- Join tokens with single spaces (the shape of a normalized text). -/
def joinSp : List (List Char) → List Char
  | [] => []
  | [u] => u
  | u :: us => u ++ ' ' :: joinSp us

/-- A nonempty word of lowercase letters. -/
def LetterWord (u : List Char) : Prop := u ≠ [] ∧ ∀ c ∈ u, isLower c = true

/-- A nonempty word of digits. -/
def DigitWord (u : List Char) : Prop := u ≠ [] ∧ ∀ c ∈ u, isDigitC c = true

instance (u : List Char) : Decidable (LetterWord u) := by
  unfold LetterWord
  infer_instance

instance (u : List Char) : Decidable (DigitWord u) := by
  unfold DigitWord
  infer_instance

/-- Facts about a digit character used by the matcher analysis. -/
theorem digit_char_facts (c : Char) (h : isDigitC c = true) :
    isWS c = false ∧ lowerChar c = c ∧ isLower c = false ∧ isExCh c = false ∧
    c ≠ '.' ∧ c ≠ 'l' ∧ c ≠ 'p' ∧ c ≠ 'f' ∧ c ≠ 'x' ∧ c ≠ 'r' := by
  simp only [isDigitC, Bool.and_eq_true, decide_eq_true_eq] at h
  obtain ⟨h1, h2⟩ := h
  have hsp : c ≠ ' ' := by rintro rfl; exact absurd h1 (by decide)
  have htab : c ≠ '\t' := by rintro rfl; exact absurd h1 (by decide)
  have hnl : c ≠ '\n' := by rintro rfl; exact absurd h1 (by decide)
  have hcr : c ≠ '\r' := by rintro rfl; exact absurd h1 (by decide)
  have hAZ : ¬('A' ≤ c ∧ c ≤ 'Z') := by
    rintro ⟨ha, -⟩
    exact absurd (le_trans ha h2) (by decide)
  have hlow : lowerChar c = c := by simp [lowerChar, hAZ]
  have haz : ¬('a' ≤ c) := fun hle => absurd (le_trans hle h2) (by decide)
  have hislow : isLower c = false := by simp [isLower, haz]
  refine ⟨by simp [isWS, hsp, htab, hnl, hcr], hlow, hislow,
    by simp [isExCh, hlow, hislow, hsp],
    by rintro rfl; exact absurd h1 (by decide), ?_, ?_, ?_, ?_, ?_⟩ <;>
    (rintro rfl; exact absurd h2 (by decide))

/-- Facts about a lowercase letter used by the matcher analysis. -/
theorem lower_char_facts (c : Char) (h : isLower c = true) :
    isWS c = false ∧ isDigitC c = false ∧ isExCh c = true := by
  simp only [isLower, Bool.and_eq_true, decide_eq_true_eq] at h
  obtain ⟨h1, h2⟩ := h
  have hsp : c ≠ ' ' := by rintro rfl; exact absurd h1 (by decide)
  have htab : c ≠ '\t' := by rintro rfl; exact absurd h1 (by decide)
  have hnl : c ≠ '\n' := by rintro rfl; exact absurd h1 (by decide)
  have hcr : c ≠ '\r' := by rintro rfl; exact absurd h1 (by decide)
  have hnine : ¬(c ≤ '9') := fun hle => absurd (le_trans h1 hle) (by decide)
  have hAZ : ¬('A' ≤ c ∧ c ≤ 'Z') := by
    rintro ⟨-, hz⟩
    exact absurd (le_trans h1 hz) (by decide)
  have hlow : lowerChar c = c := by simp [lowerChar, hAZ]
  refine ⟨by simp [isWS, hsp, htab, hnl, hcr], by simp [isDigitC, hnine], ?_⟩
  simp [isExCh, hlow, isLower, h1, h2]

/-- A case-insensitive literal always matches itself. -/
theorem matchLit_self (l t : List Char) : matchLit l (l ++ t) = some t := by
  induction l with
  | nil => simp [matchLit]
  | cons a l' ih => simp [matchLit, ih]

/-- A literal match fails on a head mismatch. -/
theorem matchLit_head_ne (a : Char) (l : List Char) (b : Char) (t : List Char)
    (h : lowerChar a ≠ lowerChar b) : matchLit (a :: l) (b :: t) = none := by
  simp [matchLit, h]

theorem joinSp_append (A B : List (List Char)) (hA : A ≠ []) (hB : B ≠ []) :
    joinSp (A ++ B) = joinSp A ++ ' ' :: joinSp B := by
  induction A with
  | nil => exact absurd rfl hA
  | cons u A' ih =>
    cases A' with
    | nil =>
      cases B with
      | nil => exact absurd rfl hB
      | cons v B' => simp [joinSp]
    | cons u' A'' =>
      have h2 := ih (by simp)
      rw [List.cons_append] at h2
      calc joinSp ((u :: u' :: A'') ++ B)
          = u ++ ' ' :: joinSp (u' :: (A'' ++ B)) := rfl
        _ = u ++ ' ' :: (joinSp (u' :: A'') ++ ' ' :: joinSp B) := by rw [h2]
        _ = (u ++ ' ' :: joinSp (u' :: A'')) ++ ' ' :: joinSp B := by simp
        _ = joinSp (u :: u' :: A'') ++ ' ' :: joinSp B := rfl

/-- The join of a token list whose first token starts with `c` starts
with `c`. -/
theorem joinSp_cons_head (t : List Char) (ts : List (List Char)) (c : Char)
    (t' : List Char) (h : t = c :: t') :
    ∃ X, joinSp (t :: ts) = c :: X := by
  cases ts with
  | nil => exact ⟨t', by simp [joinSp, h]⟩
  | cons v ts' => exact ⟨t' ++ ' ' :: joinSp (v :: ts'), by simp [joinSp, h]⟩

/-- Taking digits from a digit word followed by a non-digit boundary. -/
theorem takeWhile_digit_word (w t : List Char) (hw : ∀ c ∈ w, isDigitC c = true)
    (ht : ∀ c t', t = c :: t' → isDigitC c = false) :
    (w ++ t).takeWhile isDigitC = w ∧ (w ++ t).dropWhile isDigitC = t := by
  induction w with
  | nil =>
    cases t with
    | nil => simp
    | cons c t' =>
      have := ht c t' rfl
      simp [List.takeWhile_cons, List.dropWhile_cons, this]
  | cons a w' ih =>
    have ha := hw a (List.mem_cons_self _ _)
    have := ih (fun c hc => hw c (List.mem_cons_of_mem _ hc))
    simp [List.takeWhile_cons, List.dropWhile_cons, ha, this.1, this.2]

/-- The greedy `\d+` succeeds at the full digit run when the
continuation accepts it. -/
theorem tryDigits_full (k : List Char → List Char → Option α) (w t : List Char)
    (v : α) (hw : DigitWord w)
    (ht : ∀ c t', t = c :: t' → isDigitC c = false)
    (hk : k w t = some v) : tryDigits k (w ++ t) = some v := by
  obtain ⟨hne, hdig⟩ := hw
  obtain ⟨htw, hdw⟩ := takeWhile_digit_word w t hdig ht
  unfold tryDigits
  rw [htw, hdw]
  cases w with
  | nil => exact absurd rfl hne
  | cons a w' =>
    have hlen : (a :: w').length = w'.length + 1 := by simp
    rw [hlen]
    unfold tryDigitsAux
    rw [show w'.length + 1 = (a :: w').length from by simp, List.take_length,
      List.drop_length]
    simp only [List.nil_append, hk, Option.orElse]

theorem dropWhile_isWS_space (l : List Char) :
    (' ' :: l).dropWhile isWS = l.dropWhile isWS := by
  simp [List.dropWhile_cons, isWS]

theorem dropWhile_isWS_nonWS (c : Char) (l : List Char) (h : isWS c = false) :
    (c :: l).dropWhile isWS = c :: l := by
  simp [List.dropWhile_cons, h]

/-- The reps stage accepts `<reps digits> [reps]`. -/
theorem stageReps_tail (X r : List Char) (pt : List (List Char))
    (hr : DigitWord r) (hpt : pt = [] ∨ pt = [repsLit])
    (hX : X.dropWhile isWS = joinSp ([r] ++ pt)) :
    stageReps X = some (digitsToNat r) := by
  unfold stageReps
  rw [hX]
  rcases hpt with rfl | rfl
  · rw [show joinSp ([r] ++ ([] : List (List Char))) = r ++ [] from by simp [joinSp]]
    refine tryDigits_full _ r [] _ hr (by intro c t' h; cases h) ?_
    have ha : afterReps [] = true := by decide
    simp [ha]
  · rw [show joinSp ([r] ++ [repsLit]) = r ++ (' ' :: repsLit) from by simp [joinSp]]
    refine tryDigits_full _ r (' ' :: repsLit) _ hr ?_ ?_
    · intro c t' h
      cases h
      decide
    · have ha : afterReps (' ' :: repsLit) = true := by decide
      simp [ha]

theorem matchLit_forLit_none (c : Char) (t : List Char) (h : lowerChar c ≠ 'f') :
    matchLit forLit (c :: t) = none :=
  matchLit_head_ne 'f' _ c _ (fun he => h (by simpa [lowerChar] using he.symm))

theorem matchLit_xLit_none (c : Char) (t : List Char) (h : lowerChar c ≠ 'x') :
    matchLit xLit (c :: t) = none :=
  matchLit_head_ne 'x' _ c _ (fun he => h (by simpa [lowerChar] using he.symm))

theorem matchLit_lbsLit_none (c : Char) (t : List Char) (h : lowerChar c ≠ 'l') :
    matchLit lbsLit (c :: t) = none :=
  matchLit_head_ne 'l' _ c _ (fun he => h (by simpa [lowerChar] using he.symm))

theorem matchLit_poundsLit_none (c : Char) (t : List Char) (h : lowerChar c ≠ 'p') :
    matchLit poundsLit (c :: t) = none :=
  matchLit_head_ne 'p' _ c _ (fun he => h (by simpa [lowerChar] using he.symm))

/-- The for/x stage accepts `[for|x] <reps digits> [reps]`. -/
theorem stageFor_tail (X r : List Char) (ft pt : List (List Char))
    (hr : DigitWord r)
    (hft : ft = [] ∨ ft = [forLit] ∨ ft = [xLit])
    (hpt : pt = [] ∨ pt = [repsLit])
    (hX : X.dropWhile isWS = joinSp (ft ++ [r] ++ pt)) :
    stageFor X = some (digitsToNat r) := by
  obtain ⟨c0, r', hr0⟩ : ∃ c0 r', r = c0 :: r' := by
    cases r with
    | nil => exact absurd rfl hr.1
    | cons a b => exact ⟨a, b, rfl⟩
  have hd0 := hr.2 c0 (by rw [hr0]; exact List.mem_cons_self _ _)
  have dfacts := digit_char_facts c0 hd0
  have hsr : stageReps (' ' :: joinSp (r :: pt)) = some (digitsToNat r) := by
    obtain ⟨Y, hY⟩ := joinSp_cons_head r pt c0 r' hr0
    refine stageReps_tail _ r pt hr hpt ?_
    rw [dropWhile_isWS_space, hY, dropWhile_isWS_nonWS c0 Y dfacts.1, ← hY]
    simp
  unfold stageFor
  rcases hft with rfl | rfl | rfl
  · obtain ⟨Y, hY⟩ := joinSp_cons_head r pt c0 r' hr0
    rw [hX, show ([] : List (List Char)) ++ [r] ++ pt = r :: pt from by simp, hY]
    rw [matchLit_forLit_none c0 Y (by rw [dfacts.2.1]; exact dfacts.2.2.2.2.2.2.2.1)]
    rw [matchLit_xLit_none c0 Y (by rw [dfacts.2.1]; exact dfacts.2.2.2.2.2.2.2.2.1)]
    have hsr2 := stageReps_tail (c0 :: Y) r pt hr hpt (by
      rw [dropWhile_isWS_nonWS c0 Y dfacts.1, ← hY]
      simp)
    simp [hsr2, Option.orElse]
  · rw [hX, show [forLit] ++ [r] ++ pt = forLit :: (r :: pt) from by simp,
      show joinSp (forLit :: (r :: pt)) = forLit ++ ' ' :: joinSp (r :: pt) from rfl,
      matchLit_self]
    simp [hsr, Option.orElse]
  · rw [hX, show [xLit] ++ [r] ++ pt = xLit :: (r :: pt) from by simp,
      show joinSp (xLit :: (r :: pt)) = xLit ++ ' ' :: joinSp (r :: pt) from rfl]
    rw [show (xLit ++ ' ' :: joinSp (r :: pt)) = 'x' :: (' ' :: joinSp (r :: pt)) from rfl]
    rw [matchLit_forLit_none 'x' _ (by decide)]
    rw [show ('x' :: (' ' :: joinSp (r :: pt))) = xLit ++ (' ' :: joinSp (r :: pt)) from rfl,
      matchLit_self]
    simp [hsr, Option.orElse]

theorem joinSp_cons_ne (a : List Char) (ts : List (List Char)) (h : ts ≠ []) :
    joinSp (a :: ts) = a ++ ' ' :: joinSp ts := by
  cases ts with
  | nil => exact absurd rfl h
  | cons b ts' => rfl

/-- Head shape of the region after the weight and the optional
`lbs`/`pounds` token. -/
theorem joinSp_mid_head (r : List Char) (ft pt : List (List Char))
    (hr : DigitWord r)
    (hft : ft = [] ∨ ft = [forLit] ∨ ft = [xLit]) :
    ∃ c Y, joinSp (ft ++ [r] ++ pt) = c :: Y ∧ isWS c = false ∧
      lowerChar c ≠ 'l' ∧ lowerChar c ≠ 'p' := by
  obtain ⟨c0, r', hr0⟩ : ∃ c0 r', r = c0 :: r' := by
    cases r with
    | nil => exact absurd rfl hr.1
    | cons a b => exact ⟨a, b, rfl⟩
  have dfacts := digit_char_facts c0 (hr.2 c0 (by rw [hr0]; exact List.mem_cons_self _ _))
  rcases hft with rfl | rfl | rfl
  · obtain ⟨Y, hY⟩ := joinSp_cons_head r pt c0 r' hr0
    exact ⟨c0, Y, by simpa using hY, dfacts.1,
      by rw [dfacts.2.1]; exact dfacts.2.2.2.2.2.1,
      by rw [dfacts.2.1]; exact dfacts.2.2.2.2.2.2.1⟩
  · obtain ⟨Y, hY⟩ := joinSp_cons_head forLit (r :: pt) 'f' ['o', 'r'] rfl
    exact ⟨'f', Y, by simpa using hY, by decide, by decide, by decide⟩
  · obtain ⟨Y, hY⟩ := joinSp_cons_head xLit (r :: pt) 'x' [] rfl
    exact ⟨'x', Y, by simpa using hY, by decide, by decide, by decide⟩

/-- Head shape of the whole region after the weight token. -/
theorem joinSp_tail_head (r : List Char) (lt ft pt : List (List Char))
    (hr : DigitWord r)
    (hlt : lt = [] ∨ lt = [lbsLit] ∨ lt = [poundsLit])
    (hft : ft = [] ∨ ft = [forLit] ∨ ft = [xLit]) :
    ∃ c Y, joinSp (lt ++ ft ++ [r] ++ pt) = c :: Y ∧ isWS c = false := by
  rcases hlt with rfl | rfl | rfl
  · obtain ⟨c, Y, hY, hws, -, -⟩ := joinSp_mid_head r ft pt hr hft
    exact ⟨c, Y, by simpa using hY, hws⟩
  · obtain ⟨Y, hY⟩ := joinSp_cons_head lbsLit (ft ++ [r] ++ pt) 'l' ['b', 's'] rfl
    exact ⟨'l', Y, by simpa using hY, by decide⟩
  · obtain ⟨Y, hY⟩ := joinSp_cons_head poundsLit (ft ++ [r] ++ pt) 'p'
      ['o', 'u', 'n', 'd', 's'] rfl
    exact ⟨'p', Y, by simpa using hY, by decide⟩

/-- The lbs/pounds stage accepts
`[lbs|pounds] [for|x] <reps digits> [reps]`. -/
theorem stageLbs_tail (X r : List Char) (lt ft pt : List (List Char))
    (hr : DigitWord r)
    (hlt : lt = [] ∨ lt = [lbsLit] ∨ lt = [poundsLit])
    (hft : ft = [] ∨ ft = [forLit] ∨ ft = [xLit])
    (hpt : pt = [] ∨ pt = [repsLit])
    (hX : X.dropWhile isWS = joinSp (lt ++ ft ++ [r] ++ pt)) :
    stageLbs X = some (digitsToNat r) := by
  have hsf : stageFor (' ' :: joinSp (ft ++ [r] ++ pt)) = some (digitsToNat r) := by
    obtain ⟨c, Y, hY, hws, -, -⟩ := joinSp_mid_head r ft pt hr hft
    refine stageFor_tail _ r ft pt hr hft hpt ?_
    rw [dropWhile_isWS_space, hY, dropWhile_isWS_nonWS c Y hws, ← hY]
  simp only [List.append_assoc, List.singleton_append] at hsf
  unfold stageLbs
  rcases hlt with rfl | rfl | rfl
  · obtain ⟨c, Y, hY, hws, hl, hp⟩ := joinSp_mid_head r ft pt hr hft
    rw [hX, show ([] : List (List Char)) ++ ft ++ [r] ++ pt = ft ++ [r] ++ pt from by simp,
      hY]
    rw [matchLit_lbsLit_none c Y hl, matchLit_poundsLit_none c Y hp]
    have hsf2 := stageFor_tail (c :: Y) r ft pt hr hft hpt (by
      rw [dropWhile_isWS_nonWS c Y hws, ← hY])
    simp [hsf2, Option.orElse]
  · rw [hX, show [lbsLit] ++ ft ++ [r] ++ pt = lbsLit :: (ft ++ [r] ++ pt) from by simp,
      joinSp_cons_ne lbsLit (ft ++ [r] ++ pt) (by simp), matchLit_self]
    simp [hsf, Option.orElse]
  · rw [hX, show [poundsLit] ++ ft ++ [r] ++ pt = poundsLit :: (ft ++ [r] ++ pt) from by
        simp,
      joinSp_cons_ne poundsLit (ft ++ [r] ++ pt) (by simp)]
    rw [show (poundsLit ++ ' ' :: joinSp (ft ++ [r] ++ pt)) =
      'p' :: (['o', 'u', 'n', 'd', 's'] ++ ' ' :: joinSp (ft ++ [r] ++ pt)) from rfl]
    rw [matchLit_lbsLit_none 'p' _ (by decide)]
    rw [show ('p' :: (['o', 'u', 'n', 'd', 's'] ++ ' ' :: joinSp (ft ++ [r] ++ pt))) =
      poundsLit ++ (' ' :: joinSp (ft ++ [r] ++ pt)) from rfl, matchLit_self]
    simp [hsf, Option.orElse]

/-- The weight stage accepts the whole numeric tail. -/
theorem stageWeight_tail (w r : List Char) (lt ft pt : List (List Char))
    (hw : DigitWord w) (hr : DigitWord r)
    (hlt : lt = [] ∨ lt = [lbsLit] ∨ lt = [poundsLit])
    (hft : ft = [] ∨ ft = [forLit] ∨ ft = [xLit])
    (hpt : pt = [] ∨ pt = [repsLit]) :
    stageWeight (joinSp ([w] ++ (lt ++ ft ++ [r] ++ pt))) =
      some ((digitsToNat w : ℚ), digitsToNat r) := by
  have hrest : lt ++ ft ++ [r] ++ pt ≠ [] := by
    intro h
    have hmem : r ∈ lt ++ ft ++ [r] ++ pt := by simp
    rw [h] at hmem
    simp at hmem
  rw [joinSp_append [w] _ (by simp) hrest, show joinSp [w] = w from rfl]
  have hlbs : stageLbs (' ' :: joinSp (lt ++ ft ++ [r] ++ pt)) = some (digitsToNat r) := by
    obtain ⟨c, Y, hY, hws⟩ := joinSp_tail_head r lt ft pt hr hlt hft
    refine stageLbs_tail _ r lt ft pt hr hlt hft hpt ?_
    rw [dropWhile_isWS_space, hY, dropWhile_isWS_nonWS c Y hws, ← hY]
  simp only [List.append_assoc, List.singleton_append] at hlbs
  unfold stageWeight
  refine tryDigits_full _ w (' ' :: joinSp (lt ++ ft ++ [r] ++ pt)) _ hw
    (by intro c t' h; cases h; decide) ?_
  simp [hlbs, Option.orElse]

theorem stageWeight_nondigit_head (c : Char) (l : List Char) (h : isDigitC c = false) :
    stageWeight (c :: l) = none := by
  unfold stageWeight tryDigits
  simp [List.takeWhile_cons, h, tryDigitsAux]

theorem stageSpaceWeight_nonWS (c : Char) (l : List Char) (h : isWS c = false) :
    stageSpaceWeight (c :: l) = none := by
  simp [stageSpaceWeight, h]

theorem stageSpaceWeight_space (l : List Char) :
    stageSpaceWeight (' ' :: l) = stageWeight (l.dropWhile isWS) := by
  simp [stageSpaceWeight, show isWS ' ' = true from rfl]

/-- One lazy step that cannot match the rest of the pattern extends the
exercise prefix. -/
theorem goExercise_step_skip (pre : List Char) (c : Char) (t : List Char)
    (hc : isExCh c = true) (hfail : stageSpaceWeight t = none) :
    goExercise pre (c :: t) = goExercise (pre ++ [c]) t := by
  simp only [goExercise, hc, if_true, hfail]

/-- One lazy step after which the rest of the pattern matches returns the
accumulated exercise prefix. -/
theorem goExercise_step_hit (pre : List Char) (c : Char) (t : List Char) (v : ℚ × Nat)
    (hc : isExCh c = true) (ht : stageSpaceWeight t = some v) :
    goExercise pre (c :: t) = some (pre ++ [c], v) := by
  simp only [goExercise, hc, if_true, ht]

/-- The lazy exercise group consumes exactly the last exercise word when
the rest of the pattern matches right after it. -/
theorem goExercise_last (u pre N : List Char) (v : ℚ × Nat)
    (hu : LetterWord u) (hN : stageSpaceWeight (' ' :: N) = some v) :
    goExercise pre (u ++ ' ' :: N) = some (pre ++ u, v) := by
  revert hu
  induction u generalizing pre with
  | nil => intro hu; exact absurd rfl hu.1
  | cons c u' ih =>
    intro hu
    have lfacts := lower_char_facts c (hu.2 c (List.mem_cons_self _ _))
    cases u' with
    | nil =>
      simpa using goExercise_step_hit pre c (' ' :: N) v lfacts.2.2 hN
    | cons d u'' =>
      have dl := lower_char_facts d (hu.2 d (by simp))
      rw [List.cons_append,
        goExercise_step_skip pre c _ lfacts.2.2
          (by
            rw [show (d :: u'') ++ ' ' :: N = d :: (u'' ++ ' ' :: N) from rfl]
            exact stageSpaceWeight_nonWS d _ dl.1),
        ih (pre ++ [c]) ⟨by simp, fun x hx => hu.2 x (by simp [hx])⟩]
      simp

/-- The lazy exercise group walks over a non-final exercise word and the
following space when the rest of the pattern cannot match there. -/
theorem goExercise_mid (u pre rest : List Char) (d : Char) (rest' : List Char)
    (hu : LetterWord u) (hrest : rest = d :: rest') (hd : isWS d = false)
    (hfail : stageSpaceWeight (' ' :: rest) = none) :
    goExercise pre (u ++ ' ' :: rest) = goExercise (pre ++ u ++ [' ']) rest := by
  revert hu
  induction u generalizing pre with
  | nil => intro hu; exact absurd rfl hu.1
  | cons c u' ih =>
    intro hu
    have lfacts := lower_char_facts c (hu.2 c (List.mem_cons_self _ _))
    cases u' with
    | nil =>
      rw [List.cons_append, List.nil_append,
        goExercise_step_skip pre c (' ' :: rest) lfacts.2.2 hfail,
        goExercise_step_skip (pre ++ [c]) ' ' rest (by decide)
          (by rw [hrest]; exact stageSpaceWeight_nonWS d rest' hd)]
    | cons e u'' =>
      have el := lower_char_facts e (hu.2 e (by simp))
      rw [List.cons_append,
        goExercise_step_skip pre c _ lfacts.2.2
          (by
            rw [show (e :: u'') ++ ' ' :: rest = e :: (u'' ++ ' ' :: rest) from rfl]
            exact stageSpaceWeight_nonWS e _ el.1),
        ih (pre ++ [c]) ⟨by simp, fun x hx => hu.2 x (by simp [hx])⟩]
      simp

/-- The lazy exercise group consumes exactly the joined exercise words. -/
theorem goExercise_words (words : List (List Char)) (pre N : List Char) (v : ℚ × Nat)
    (hne : words ≠ []) (hall : ∀ u ∈ words, LetterWord u)
    (hN : stageSpaceWeight (' ' :: N) = some v) :
    goExercise pre (joinSp words ++ ' ' :: N) = some (pre ++ joinSp words, v) := by
  revert hne hall
  induction words generalizing pre with
  | nil => intro hne _; exact absurd rfl hne
  | cons u ws ih =>
    intro hne hall
    cases ws with
    | nil =>
      simpa [joinSp] using goExercise_last u pre N v (hall u (by simp)) hN
    | cons u' ws' =>
      obtain ⟨c, t', hc⟩ : ∃ c t', u' = c :: t' := by
        cases hu2 : u' with
        | nil => exact absurd rfl (hall [] (by simp [← hu2])).1
        | cons a b => exact ⟨a, b, rfl⟩
      obtain ⟨Y, hY⟩ := joinSp_cons_head u' ws' c t' hc
      have hlc : isLower c = true := (hall u' (by simp)).2 c (by rw [hc]; simp)
      have lf := lower_char_facts c hlc
      have hfail : stageSpaceWeight (' ' :: (joinSp (u' :: ws') ++ ' ' :: N)) = none := by
        rw [stageSpaceWeight_space,
          show joinSp (u' :: ws') ++ ' ' :: N = c :: (Y ++ ' ' :: N) from by rw [hY]; simp,
          dropWhile_isWS_nonWS c _ lf.1]
        exact stageWeight_nondigit_head c _ lf.2.1
      calc goExercise pre (joinSp (u :: u' :: ws') ++ ' ' :: N)
          = goExercise pre (u ++ ' ' :: (joinSp (u' :: ws') ++ ' ' :: N)) := by
            rw [show joinSp (u :: u' :: ws') = u ++ ' ' :: joinSp (u' :: ws') from rfl]
            simp
        _ = goExercise (pre ++ u ++ [' ']) (joinSp (u' :: ws') ++ ' ' :: N) :=
            goExercise_mid u pre _ c (Y ++ ' ' :: N) (hall u (by simp))
              (by rw [hY]; simp) lf.1 hfail
        _ = some ((pre ++ u ++ [' ']) ++ joinSp (u' :: ws'), v) :=
            ih (pre ++ u ++ [' ']) (by simp) (fun x hx => hall x (by simp [hx]))
        _ = some (pre ++ joinSp (u :: u' :: ws'), v) := by
            rw [show joinSp (u :: u' :: ws') = u ++ ' ' :: joinSp (u' :: ws') from rfl]
            simp

/-- The join of letter words ends with a letter. -/
theorem joinSp_reverse_head (words : List (List Char))
    (hne : words ≠ []) (hall : ∀ u ∈ words, LetterWord u) :
    ∃ c Y, (joinSp words).reverse = c :: Y ∧ isLower c = true := by
  revert hne hall
  induction words with
  | nil => intro hne _; exact absurd rfl hne
  | cons u ws ih =>
    intro hne hall
    cases ws with
    | nil =>
      cases hrev : u.reverse with
      | nil =>
        exact absurd (by simpa using congrArg List.reverse hrev) (hall u (by simp)).1
      | cons c Y =>
        refine ⟨c, Y, by simpa [joinSp] using hrev, ?_⟩
        exact (hall u (by simp)).2 c (by
          rw [← List.mem_reverse, hrev]
          exact List.mem_cons_self _ _)
    | cons u' ws' =>
      obtain ⟨c, Y, hY, hc⟩ := ih (by simp) (fun x hx => hall x (by simp [hx]))
      refine ⟨c, Y ++ (' ' :: u.reverse), ?_, hc⟩
      rw [show joinSp (u :: u' :: ws') = u ++ ' ' :: joinSp (u' :: ws') from rfl]
      rw [List.reverse_append, List.reverse_cons, hY]
      simp

/-- The join of letter words is unchanged by `trim`. -/
theorem trimStr_joinSp_letters (words : List (List Char))
    (hne : words ≠ []) (hall : ∀ u ∈ words, LetterWord u) :
    trimStr (joinSp words) = joinSp words := by
  obtain ⟨c', Y', hrev, hc'⟩ := joinSp_reverse_head words hne hall
  have hhead : ∃ c Y, joinSp words = c :: Y ∧ isLower c = true := by
    cases words with
    | nil => exact absurd rfl hne
    | cons u ws =>
      obtain ⟨c, t', hc⟩ : ∃ c t', u = c :: t' := by
        cases hu2 : u with
        | nil => exact absurd rfl (hall [] (by simp [← hu2])).1
        | cons a b => exact ⟨a, b, rfl⟩
      obtain ⟨Y, hY⟩ := joinSp_cons_head u ws c t' hc
      exact ⟨c, Y, hY, (hall u (by simp)).2 c (by rw [hc]; simp)⟩
  obtain ⟨c, Y, hY, hc⟩ := hhead
  unfold trimStr trimLeft trimRight
  rw [hY, dropWhile_isWS_nonWS c Y (lower_char_facts c hc).1, ← hY, hrev,
    dropWhile_isWS_nonWS c' Y' (lower_char_facts c' hc').1, ← hrev,
    List.reverse_reverse]

/-! ## Claim C2 — the Tier-1 grammar is parsed faithfully -/

/-- C2 (amended): every transcript whose normalization is a space-join
matching the grammar
`<exercise words> <weight number> [lbs|pounds] [for|x] <reps number> [reps]`
and that does not contain a contextual phrase (`same weight`,
`same reps`, `same as`) after normalization is parsed by
`parseWorkoutSet` into exactly the matched groups: the joined exercise
words (trimmed, not title-cased), the weight number and the reps number,
regardless of the optional tokens and of the input's letter case. -/
theorem parseWorkoutSet_grammar (raw : List Char) (words : List (List Char))
    (w r : List Char) (lt ft pt : List (List Char))
    (hwords : words ≠ [] ∧ ∀ u ∈ words, LetterWord u)
    (hw : DigitWord w) (hr : DigitWord r)
    (hlt : lt = [] ∨ lt = [lbsLit] ∨ lt = [poundsLit])
    (hft : ft = [] ∨ ft = [forLit] ∨ ft = [xLit])
    (hpt : pt = [] ∨ pt = [repsLit])
    (htext : normalize raw = joinSp (words ++ [w] ++ lt ++ ft ++ [r] ++ pt))
    (hctx : containsSub sameWeightLit (normalize raw) = false ∧
      containsSub sameRepsLit (normalize raw) = false ∧
      containsSub sameAsLit (normalize raw) = false) :
    parseWorkoutSet raw =
      some ⟨joinSp words, (digitsToNat w : ℚ), (digitsToNat r : ℤ)⟩ := by
  have hsplit : joinSp (words ++ [w] ++ lt ++ ft ++ [r] ++ pt) =
      joinSp words ++ ' ' :: joinSp ([w] ++ (lt ++ ft ++ [r] ++ pt)) := by
    rw [show words ++ [w] ++ lt ++ ft ++ [r] ++ pt =
        words ++ ([w] ++ (lt ++ ft ++ [r] ++ pt)) from by simp,
      joinSp_append words _ hwords.1 (by simp)]
  have hsw : stageSpaceWeight (' ' :: joinSp ([w] ++ (lt ++ ft ++ [r] ++ pt))) =
      some ((digitsToNat w : ℚ), digitsToNat r) := by
    obtain ⟨cw, w', hw0⟩ : ∃ cw w', w = cw :: w' := by
      cases hw2 : w with
      | nil => exact absurd hw2 hw.1
      | cons a b => exact ⟨a, b, rfl⟩
    have dw := digit_char_facts cw (hw.2 cw (by rw [hw0]; exact List.mem_cons_self _ _))
    obtain ⟨Y, hY⟩ := joinSp_cons_head w (lt ++ ft ++ [r] ++ pt) cw w' hw0
    rw [stageSpaceWeight_space,
      show joinSp ([w] ++ (lt ++ ft ++ [r] ++ pt)) = joinSp (w :: (lt ++ ft ++ [r] ++ pt))
        from by simp, hY, dropWhile_isWS_nonWS cw Y dw.1, ← hY,
      show joinSp (w :: (lt ++ ft ++ [r] ++ pt)) = joinSp ([w] ++ (lt ++ ft ++ [r] ++ pt))
        from by simp]
    exact stageWeight_tail w r lt ft pt hw hr hlt hft hpt
  have hmatch : matchTier1 (normalize raw) =
      some (joinSp words, ((digitsToNat w : ℚ), digitsToNat r)) := by
    rw [htext, hsplit]
    exact goExercise_words words [] _ _ hwords.1 hwords.2 hsw
  have hcond : (containsSub sameWeightLit (normalize raw) ||
      containsSub sameRepsLit (normalize raw) ||
      containsSub sameAsLit (normalize raw)) = false := by
    rw [hctx.1, hctx.2.1, hctx.2.2]
    rfl
  simp only [parseWorkoutSet, hcond, Bool.false_eq_true, if_false, hmatch,
    Option.map_some']
  simp [trimStr_joinSp_letters words hwords.1 hwords.2]

/-- Counterexample for C2 as stated: the transcript `'same as 100 for 5'`
matches the grammar (exercise words `same as`, weight 100, reps 5) but
`parseWorkoutSet` returns `none` because of the contextual-phrase
rejection, not the matched triple. -/
theorem parseWorkoutSet_grammar_counterexample :
    normalize "same as 100 for 5".toList =
      joinSp ([['s', 'a', 'm', 'e'], ['a', 's']] ++ [['1', '0', '0']] ++ [] ++
        [forLit] ++ [['5']] ++ []) ∧
    (∀ u ∈ [['s', 'a', 'm', 'e'], ['a', 's']], LetterWord u) ∧
    DigitWord ['1', '0', '0'] ∧ DigitWord ['5'] ∧
    parseWorkoutSet "same as 100 for 5".toList = none := by
  refine ⟨by decide, by decide, by decide, by decide, by decide⟩

/-- Witness for C2's amended theorem: a mixed-case transcript with both
optional tokens present parses to the matched groups. -/
theorem parseWorkoutSet_grammar_witness :
    parseWorkoutSet "Bench Press, 185 lbs for 8 reps".toList =
      some ⟨"bench press".toList, 185, 8⟩ := by
  have h := parseWorkoutSet_grammar "Bench Press, 185 lbs for 8 reps".toList
    [['b', 'e', 'n', 'c', 'h'], ['p', 'r', 'e', 's', 's']]
    ['1', '8', '5'] ['8'] [lbsLit] [forLit] [repsLit]
    ⟨by decide, by decide⟩ ⟨by decide, by decide⟩ ⟨by decide, by decide⟩
    (Or.inr (Or.inl rfl)) (Or.inr (Or.inl rfl)) (Or.inr rfl)
    (by decide) ⟨by decide, by decide, by decide⟩
  rw [h]
  decide

end Kori
